import Mathlib

/-!
# cdscheck: iterative resolver and DNSSEC chain validator

A shallow embedding of `check.go`.  Records are flat structures carrying the
header and the typed body fields the program reads; the referral cache is a
heap of `Referral` objects addressed by index (the Go code shares `*Referral`
pointers between the cache and local variables); the network, the random
generator, the clock and the cache expiry are oracles indexed by a tick
counter kept in the checker state.
-/

namespace CdsCheck

/-! ## DNS constants (miekg/dns) -/

abbrev TypeNS : Nat := 2
abbrev TypeDS : Nat := 43
abbrev TypeRRSIG : Nat := 46
abbrev TypeNSEC : Nat := 47
abbrev TypeDNSKEY : Nat := 48
abbrev TypeNSEC3 : Nat := 50
abbrev TypeCDS : Nat := 59
abbrev TypeCDNSKEY : Nat := 60
abbrev TypeANY : Nat := 255
abbrev RcodeNameError : Nat := 3

/-! ## Data model -/

/-- A resource record: header (`Name`, `Rrtype`) and the body fields of the
typed records the program reads (NS, DS/CDS, DNSKEY/CDNSKEY, RRSIG).  `ptr`
stands for the address of the Go object: `r == rr` on `dns.RR` interface
values compares addresses. -/
structure RR where
  ptr : Nat
  Name : String
  Rrtype : Nat
  Ns : String := ""
  KeyTag : Nat := 0
  Algorithm : Nat := 0
  DigestType : Nat := 0
  Digest : String := ""
  Flags : Nat := 0
  PublicKey : String := ""
  TypeCovered : Nat := 0
  SignerName : String := ""
  Inception : Nat := 0
  Expiration : Nat := 0
  deriving DecidableEq, Repr

/-- Error values returned by the program.  `Lib` carries an error produced by
the DNS library (transport, signature verification); `Rcode` is the error built
from `dns.RcodeToString`. -/
inductive Err where
  | EmptyRrset
  | MultipleNames
  | MultipleTypes
  | BadSigner
  | NotValidNow
  | LookupFailed (name : String)
  | Rcode (code : Nat)
  | Lib (msg : String)
  deriving DecidableEq, Repr

/-- A DNS message as far as the program reads it. -/
structure Msg where
  Rcode : Nat := 0
  Authoritative : Bool := false
  Truncated : Bool := false
  Answer : List RR := []
  Ns : List RR := []
  Extra : List RR := []
  deriving DecidableEq, Repr

/-- Library operations on keys and signatures, taken as parameters:
`KeyTag` is `(*dns.DNSKEY).KeyTag()`, `ToDS` is `(*dns.DNSKEY).ToDS(digestType)`,
`ValidityPeriod` is `(*dns.RRSIG).ValidityPeriod(t)` and `Verify` is
`(*dns.RRSIG).Verify(key, rrset)` (`none` is a nil error). -/
structure Crypto where
  KeyTag : RR → Nat
  ToDS : RR → Nat → RR
  ValidityPeriod : RR → Nat → Bool
  Verify : RR → RR → List RR → Option String

/-- Result of `(*dns.Client).Exchange`: a message with a nil error, or an error
together with whatever message pointer the library hands back. -/
inductive Exchanged where
  | ok (m : Msg)
  | fail (m : Option Msg) (e : String)
  deriving DecidableEq, Repr

/-- The environment: UDP and TCP exchanges, `rand.Intn`, `time.Now` and the
lapse of the cache TTL, each read at the current tick. -/
structure Env where
  udp : Nat → String → Nat → String → Exchanged
  tcp : Nat → String → Nat → String → Exchanged
  Intn : Nat → Nat → Nat
  now : Nat → Nat
  expired : Nat → String → Bool

/-- The Go struct `Referral`. -/
structure Referral where
  origin : String
  authority : List RR := []
  answer : List RR := []
  deriving DecidableEq, Repr

/-- The Go struct `Checker`.  `heap` holds the `Referral` objects, `referrals`
is the TTL cache from name to object address, `root` is the address of the
"." entry point and `tick` counts the environment reads made so far. -/
structure Checker where
  trustedKeys : List RR
  heap : List Referral
  referrals : List (String × Nat)
  root : Nat
  tick : Nat
  deriving DecidableEq, Repr

/-- The Go struct `PublishedKeys`. -/
structure PublishedKeys where
  Signers : List String := []
  DNSKEY : List RR := []
  CDS : List RR := []
  CDNSKEY : List RR := []
  deriving DecidableEq, Repr

/-! ## Domain-name helpers of the DNS library -/

/-- The library function `dns.Fqdn`: append the trailing dot when it is missing. -/
def Fqdn (s : String) : String :=
  if s.data.getLast? = some '.' then s else s ++ "."

/-- The function `strings.ToLower`, character by character. -/
def ToLower (s : String) : String :=
  String.mk (s.data.map Char.toLower)

/-- The library function `dns.NextLabel` on the text that starts at the current offset: the text
after the next unescaped dot, or `none` when the end is reached.  The last
character is never examined, as in the library loop `i < len(s)-1`. -/
def NextLabel : Bool → List Char → Option (List Char)
  | _, [] => none
  | _, [_] => none
  | quote, c :: d :: rest =>
    if c = '\\' then NextLabel (!quote) (d :: rest)
    else if c = '.' then
      if quote then NextLabel false (d :: rest) else some (d :: rest)
    else NextLabel false (d :: rest)

/-- The loop of `dns.Split` and `dns.CountLabel`: the text from the current
offset on is cut after each unescaped dot that `NextLabel` finds; the last piece
is what remains when `NextLabel` reports the end. -/
def labelPieces : Nat → List Char → List (List Char)
  | 0, _ => []
  | n + 1, rest =>
    match NextLabel false rest with
    | none => [rest]
    | some next => rest.take (rest.length - next.length) :: labelPieces n next

/-- The label texts `s[l[i]:l[i+1]]` and `s[l[last]:]` that `CompareDomainName`
compares, `l` being the offsets returned by `dns.Split(s)`; `dns.Split(".")` is
nil.  The name is taken as given: it is not qualified and a label keeps its
trailing dot. -/
def labelTexts (s : String) : List (List Char) :=
  if s = "." then [] else labelPieces (s.length + 1) s.data

/-- The library function `equal`: equality of two label texts ignoring ASCII
case. -/
def equal (a b : List Char) : Bool :=
  a.map Char.toLower == b.map Char.toLower

/-- Number of leading positions at which two lists of label texts agree under
`equal`. -/
def commonLen : List (List Char) → List (List Char) → Nat
  | a :: as, b :: bs => if equal a b then commonLen as bs + 1 else 0
  | _, _ => 0

/-- The library function `dns.CountLabel`. -/
def CountLabel (s : String) : Nat :=
  if s = "." then 0 else (labelPieces (s.length + 1) s.data).length

/-- The library function `dns.CompareDomainName`: how many labels two names
share, counted from the right and compared with `equal`; 0 when either name is
the root. -/
def CompareDomainName (s1 s2 : String) : Nat :=
  if s1 = "." ∨ s2 = "." then 0
  else commonLen (labelTexts s1).reverse (labelTexts s2).reverse

/-- The library function `dns.IsSubDomain(parent, child)`: it "checks if child
is indeed a child of the parent", and holds as well when both are the same
domain; computed as `CompareDomainName(parent, child) == CountLabel(parent)`. -/
def IsSubDomain (parent child : String) : Bool :=
  CompareDomainName parent child == CountLabel parent

/-- The labels of a name in lower case: what a label-wise comparison that
ignores ASCII case looks at. -/
def lowerLabels (s : String) : List (List Char) :=
  (labelTexts s).map (fun l => l.map Char.toLower)

/-- The function `net.JoinHostPort`. -/
def JoinHostPort (host port : String) : String :=
  if host.data.any (fun c => c = ':' || c = '%') then "[" ++ host ++ "]:" ++ port
  else host ++ ":" ++ port

/-! ## Record utilities -/

def GetKey (cr : Crypto) (set : List RR) (tag : Nat) : Option RR :=
  set.find? (fun rr => rr.Rrtype == TypeDNSKEY && cr.KeyTag rr == tag)

def GetDS (cr : Crypto) (set : List RR) (key : RR) : Option RR :=
  set.find? (fun rr => rr.Rrtype == TypeDS && cr.KeyTag key == rr.KeyTag &&
    (cr.ToDS key rr.DigestType).Digest == rr.Digest)

def GetRRs (set : List RR) (name : String) (rtype : Nat) : List RR :=
  set.filter (fun rr => rr.Name == name &&
    (rr.Rrtype == rtype || rtype == TypeANY || rr.Rrtype == TypeRRSIG))

/-- One step of the loop of `Shuffle`: `a[i], a[j] = a[j], a[i]`. -/
def swapAt (a : List RR) (i j : Nat) : List RR :=
  match a.get? i, a.get? j with
  | some x, some y => (a.set i y).set j x
  | _, _ => a

/-- The loop of `Shuffle` from index `i` on, for `n` more elements; every
`rand.Intn(i + 1)` is one read of the environment. -/
def shuffleFrom (env : Env) : Nat → Nat → Nat → List RR → List RR × Nat
  | 0, _, tick, a => (a, tick)
  | n + 1, i, tick, a =>
    shuffleFrom env n (i + 1) (tick + 1) (swapAt a i (env.Intn tick (i + 1) % (i + 1)))

/-- The function `Shuffle(a)`: permutes `a` in place; returns the permuted list and the next
tick. -/
def Shuffle (env : Env) (tick : Nat) (a : List RR) : List RR × Nat :=
  shuffleFrom env a.length 0 tick a

/-- The function `GetNS`: the targets of the NS rows of `Shuffle(set)`, together
with what `Shuffle` leaves behind: the permuted list (the caller's slice is
permuted in place) and the next tick. -/
def GetNS (env : Env) (tick : Nat) (set : List RR) : List String × List RR × Nat :=
  (((Shuffle env tick set).1.filter (fun rr => rr.Rrtype == TypeNS)).map (fun rr => rr.Ns),
   (Shuffle env tick set).1, (Shuffle env tick set).2)

def SignedRecords (rrset : List RR) (rtype : Nat) : List RR × List RR :=
  (rrset.filter (fun rr => rr.Rrtype == rtype),
   rrset.filter (fun rr => rr.Rrtype == TypeRRSIG && rr.TypeCovered == rtype))

/-- The rows `RrsetName` skips. -/
def isNsecLike (t : Nat) : Bool :=
  t == TypeNSEC || t == TypeNSEC3 || t == TypeRRSIG

def RrsetName (rrset : List RR) : String × Option Err :=
  match rrset with
  | [] => ("", some .EmptyRrset)
  | first :: _ =>
    if rrset.all (fun rr => rr.Name == first.Name || isNsecLike rr.Rrtype) then (first.Name, none)
    else ("", some .MultipleNames)

def RrsetType (rrset : List RR) : Nat × Option Err :=
  match rrset with
  | [] => (0, some .EmptyRrset)
  | first :: _ =>
    if rrset.all (fun rr => rr.Rrtype == first.Rrtype) then (first.Rrtype, none)
    else (0, some .MultipleTypes)

/-- The function `ValidateOne`; `now` is the value of `time.Now()`.  `none` is a nil error. -/
def ValidateOne (cr : Crypto) (now : Nat) (rrset : List RR) (sig key : RR) : Option Err :=
  match RrsetName rrset with
  | (_, some e) => some e
  | (name, none) =>
    match RrsetType rrset with
    | (_, some e) => some e
    | (rtype, none) =>
      if rtype != TypeDS && !IsSubDomain name sig.SignerName then some .BadSigner
      else if rtype == TypeDS && IsSubDomain name sig.SignerName then some .BadSigner
      else if !cr.ValidityPeriod sig now then some .NotValidNow
      else match cr.Verify sig key rrset with
        | some e => some (.Lib e)
        | none => none

/-! ## Referral cache -/

/-- Outcome of a call: it returns a value and leaves a checker state, or the
process aborts (`log.Fatal`, nil dereference), or the recursion bound of the
model is exhausted. -/
inductive Run (α : Type) where
  | ret (a : α) (c : Checker)
  | crash
  | fuel
  deriving DecidableEq, Repr

/-- The value a call returns, when it returns. -/
def Run.val? {α : Type} : Run α → Option α
  | .ret a _ => some a
  | _ => none

/-- The checker state a call leaves, when it returns. -/
def Run.state? {α : Type} : Run α → Option Checker
  | .ret _ c => some c
  | _ => none

/-- The object at address `p`. -/
def deref (heap : List Referral) (p : Nat) : Referral :=
  heap.getD p { origin := "" }

/-- Write through the pointer `p`. -/
def updateRef (heap : List Referral) (p : Nat) (f : Referral → Referral) : List Referral :=
  match heap.get? p with
  | some r => heap.set p (f r)
  | none => heap

/-- The call `c.referrals.Get(name)` of the TTL cache: an entry whose TTL has lapsed is
deleted and reported as missing. -/
def cacheGet (env : Env) (c : Checker) (name : String) : Option Nat × Checker :=
  match c.referrals.lookup name with
  | none => (none, { c with tick := c.tick + 1 })
  | some p =>
    if env.expired c.tick name then
      (none, { c with referrals := c.referrals.filter (fun e => e.1 != name), tick := c.tick + 1 })
    else (some p, { c with tick := c.tick + 1 })

/-- The call `c.referrals.Set(name, ref)`. -/
def cacheSet (c : Checker) (name : String) (p : Nat) : Checker :=
  { c with referrals := (name, p) :: c.referrals.filter (fun e => e.1 != name) }

def NewChecker : Checker :=
  { trustedKeys := []
    heap := [{ origin := ".",
               authority := [{ ptr := 0, Name := ".", Rrtype := TypeNS, Ns := "a.root-servers.net." }] }]
    referrals := []
    root := 0
    tick := 0 }

def GetReferral (env : Env) (c : Checker) (name : String) : Option Nat × Checker :=
  match cacheGet env c name with
  | (some p, c1) => (some p, c1)
  | (none, c1) => if name = "." then (some c1.root, c1) else (none, c1)

/-- The first lines shared by `AddReferral` and `AddAnswer`: the entry for
`name`, created when `GetReferral` finds none. -/
def ensureReferral (env : Env) (c : Checker) (name : String) : Nat × Checker :=
  match GetReferral env c name with
  | (some p, c1) => (p, c1)
  | (none, c1) =>
    (c1.heap.length, cacheSet { c1 with heap := c1.heap ++ [{ origin := name }] } name c1.heap.length)

def AddReferral (env : Env) (c : Checker) (name : String) (rr : RR) : Checker :=
  match ensureReferral env c name with
  | (p, c1) =>
    { c1 with heap := updateRef c1.heap p (fun ref =>
        if ref.authority.any (fun r => r.ptr == rr.ptr) then ref
        else { ref with authority := ref.authority ++ [rr] }) }

def AddAnswer (env : Env) (c : Checker) (name : String) (rr : RR) : Checker :=
  match ensureReferral env c name with
  | (p, c1) =>
    { c1 with heap := updateRef c1.heap p (fun ref =>
        if ref.answer.any (fun r => r.ptr == rr.ptr) then ref
        else { ref with answer := ref.answer ++ [rr] }) }

def AddTrustedKey (c : Checker) (key : RR) : Checker :=
  { c with trustedKeys := c.trustedKeys ++ [key] }

/-! ## Query engine and iterative resolver -/

/-- The method `Query`: one UDP exchange, retried over TCP when the reply is truncated.
Returns the message pointer and the error. -/
def Query (env : Env) (c : Checker) (domain : String) (rtype : Nat) (nameserver : String) :
    (Option Msg × Option Err) × Checker :=
  match env.udp c.tick (Fqdn domain) rtype nameserver with
  | .fail m e => ((m, some (.Lib e)), { c with tick := c.tick + 1 })
  | .ok m =>
    if m.Truncated then
      match env.tcp (c.tick + 1) (Fqdn domain) rtype nameserver with
      | .fail m2 e => ((m2, some (.Lib e)), { c with tick := c.tick + 2 })
      | .ok m2 => ((some m2, none), { c with tick := c.tick + 2 })
    else ((some m, none), { c with tick := c.tick + 1 })

/-- The loop of `Walk`: the name from each label start on. -/
def walkFrom : Nat → List Char → List String
  | 0, _ => []
  | n + 1, rest =>
    String.mk rest ::
      match NextLabel false rest with
      | none => []
      | some next => walkFrom n next

def Walk (domain : String) : List String :=
  walkFrom ((Fqdn (ToLower domain)).length + 1) (Fqdn (ToLower domain)).data ++ ["."]

/-- The loop over `Walk(name)` in `QueryAtOrigin`: the first origin that has a
referral. -/
def firstReferral (env : Env) : List String → Checker → Option Nat × Checker
  | [], c => (none, c)
  | origin :: rest, c =>
    match GetReferral env c origin with
    | (some p, c1) => (some p, c1)
    | (none, c1) => firstReferral env rest c1

/-- The loop over the nameservers: `msg` and `err` are the Go variables, the
loop stops at the first exchange with a nil error.  (The Rcode tests that follow
the `if err == nil { break } else { continue }` in the source are never
reached.) -/
def queryLoop (env : Env) (name : String) (rtype : Nat) :
    List String → Option Msg → Option Err → Checker → (Option Msg × Option Err) × Checker
  | [], msg, err, c => ((msg, err), c)
  | ns :: rest, _, _, c =>
    match Query env c name rtype (JoinHostPort ns "53") with
    | ((m, none), c1) => ((m, none), c1)
    | ((m, some e), c1) => queryLoop env name rtype rest m (some e) c1

/-- The loop `for _, rr := range msg.Ns` of the referral branch. -/
def addReferrals (env : Env) (child : String) : List RR → Option Nat → Checker → Option Nat × Checker
  | [], ref, c => (ref, c)
  | rr :: rest, _, c =>
    match GetReferral env (AddReferral env c child rr) child with
    | (ref1, c1) => addReferrals env child rest ref1 c1

/-- The part of the loop body of `QueryAtOrigin` after `msg` is known.  Returns
either the final result or the referral to continue from. -/
def classify (env : Env) (name : String) (msg : Msg) (ref : Option Nat) (c : Checker) :
    (List RR × Option Err) × Checker ⊕ Option Nat × Checker :=
  if msg.Authoritative then
    let c1 := msg.Answer.foldl (fun c rr => AddAnswer env c name rr) c
    match GetReferral env c1 name with
    | (some q, c2) => .inl ((msg.Answer ++ (deref c2.heap q).authority, none), c2)
    | (none, c2) => .inl ((msg.Answer, none), c2)
  else
    match RrsetName msg.Ns with
    | (_, some e) => .inl (([], some e), c)
    | (child, none) => .inr (addReferrals env child msg.Ns ref c)

/-- The loop `for depth := 0; depth < 10; depth++` with `n` rounds left; `ref`
is the current referral and `err` the named result `err`. -/
def queryFrom (env : Env) (name : String) (rtype : Nat) :
    Nat → Option Nat → Option Err → Checker → Run (List RR × Option Err)
  | 0, _, err, c => .ret ([], err) c
  | _ + 1, none, _, _ => .crash
  | n + 1, some p, err, c =>
    let cached := GetRRs (deref c.heap p).answer name rtype
    if cached.length = 0 then
      match GetNS env c.tick (deref c.heap p).authority with
      | (servers, shuffled, t) =>
        let c1 := { c with heap := updateRef c.heap p (fun r => { r with authority := shuffled }),
                           tick := t }
        match queryLoop env name rtype servers none err c1 with
        | ((none, _), c2) => .ret ([], some (.LookupFailed name)) c2
        | ((some msg, err1), c2) =>
          match classify env name msg (some p) c2 with
          | .inl (res, c3) => .ret res c3
          | .inr (ref1, c3) => queryFrom env name rtype n ref1 err1 c3
    else
      match classify env name { Authoritative := true, Answer := cached } (some p) c with
      | .inl (res, c3) => .ret res c3
      | .inr (ref1, c3) => queryFrom env name rtype n ref1 err c3

def QueryAtOrigin (env : Env) (c : Checker) (name : String) (rtype : Nat) :
    Run (List RR × Option Err) :=
  match (if rtype = TypeDS then GetReferral env c "." else firstReferral env (Walk name) c) with
  | (none, _) => .crash
  | (some p, c1) => queryFrom env name rtype 10 (some p) none c1

def Lookup (env : Env) (c : Checker) (domain : String) (rtype : Nat) :
    Run (List RR × Option Err) :=
  QueryAtOrigin env c domain rtype

/-! ## Chain validator -/

def IsTrustedKey (c : Checker) (key : RR) : String × Bool :=
  match c.trustedKeys.find? (fun other => key.PublicKey == other.PublicKey) with
  | some other => (other.Name, true)
  | none => ("", false)

/-- The loop `for _, sig := range sigset` of `Validate`; `recur` stands for the
recursive calls of `Validate`. -/
def validateLoop (cr : Crypto) (env : Env) (recur : Checker → List RR → List RR → Run String)
    (rrset : List RR) : List RR → Checker → Run String
  | [], c => .ret "" c
  | sig :: rest, c =>
    match Lookup env c sig.SignerName TypeDNSKEY with
    | .crash => .crash
    | .fuel => .fuel
    | .ret (_, some _) c1 => validateLoop cr env recur rrset rest c1
    | .ret (set, none) c1 =>
      match GetKey cr set sig.KeyTag with
      | none => validateLoop cr env recur rrset rest c1
      | some key =>
        match ValidateOne cr (env.now c1.tick) rrset sig key with
        | some _ => validateLoop cr env recur rrset rest c1
        | none =>
          match IsTrustedKey c1 key with
          | (name, true) => .ret name c1
          | (_, false) =>
            match GetKey cr rrset sig.KeyTag with
            | some _ =>
              match Lookup env c1 sig.SignerName TypeDS with
              | .crash => .crash
              | .fuel => .fuel
              | .ret (_, some _) c2 => validateLoop cr env recur rrset rest c2
              | .ret (set2, none) c2 =>
                match recur c2 (SignedRecords set2 TypeDS).1 (SignedRecords set2 TypeDS).2 with
                | .crash => .crash
                | .fuel => .fuel
                | .ret trusted c3 =>
                  if trusted ≠ "" then .ret trusted c3
                  else validateLoop cr env recur rrset rest c3
            | none =>
              match recur c1 (SignedRecords set TypeDS).1 (SignedRecords set TypeDS).2 with
              | .crash => .crash
              | .fuel => .fuel
              | .ret trusted c2 =>
                if trusted ≠ "" then .ret trusted c2
                else
                  match recur c2 (SignedRecords set TypeDNSKEY).1 (SignedRecords set TypeDNSKEY).2 with
                  | .crash => .crash
                  | .fuel => .fuel
                  | .ret trusted2 c3 =>
                    if trusted2 ≠ "" then .ret trusted2 c3
                    else validateLoop cr env recur rrset rest c3

/-- The method `Validate`, with a bound on the depth of the recursion: `fuel` nested calls
are allowed, a deeper one yields `Run.fuel`. -/
def Validate (cr : Crypto) (env : Env) : Nat → Checker → List RR → List RR → Run String
  | 0, _, _, _ => .fuel
  | fuel + 1, c, rrset, sigset =>
    validateLoop cr env (Validate cr env fuel) rrset sigset c

/-! ## Public facade -/

/-- The loop of `ValidKeys` over the record types still to do. -/
def validKeysLoop (cr : Crypto) (env : Env) (fuel : Nat) (rrset : List RR) :
    List Nat → List String → List RR → Checker → Run (List String × List RR)
  | [], signers, result, c => .ret (signers, result) c
  | rtype :: rest, signers, result, c =>
    match Validate cr env fuel c (SignedRecords rrset rtype).1 (SignedRecords rrset rtype).2 with
    | .crash => .crash
    | .fuel => .fuel
    | .ret valid c1 =>
      if valid ≠ "" then
        validKeysLoop cr env fuel rrset rest (signers ++ [valid])
          (result ++ (SignedRecords rrset rtype).1) c1
      else validKeysLoop cr env fuel rrset rest signers result c1

def ValidKeys (cr : Crypto) (env : Env) (fuel : Nat) (c : Checker) (rrset : List RR) :
    Run (List String × List RR) :=
  validKeysLoop cr env fuel rrset [TypeCDS, TypeCDNSKEY, TypeDNSKEY] [] [] c

/-- The first loop of `DomainKeys`: the lookups, accumulated in `answer`. -/
def lookupAll (env : Env) (domain : String) :
    List Nat → List RR → Checker → Run (List RR × Option Err)
  | [], answer, c => .ret (answer, none) c
  | rtype :: rest, answer, c =>
    match Lookup env c domain rtype with
    | .crash => .crash
    | .fuel => .fuel
    | .ret (_, some e) c1 => .ret ([], some e) c1
    | .ret (auth, none) c1 => lookupAll env domain rest (answer ++ auth) c1

/-- The last loop of `DomainKeys`: the validated records, by type. -/
def fillKeys (signers : List String) (all : List RR) : PublishedKeys :=
  { Signers := signers
    DNSKEY := all.filter (fun rr => rr.Rrtype == TypeDNSKEY)
    CDS := all.filter (fun rr => rr.Rrtype == TypeCDS)
    CDNSKEY := all.filter (fun rr => rr.Rrtype == TypeCDNSKEY) }

/-- The method `DomainKeys`; the result is the pair `(keys, err)` with `keys = none` for
the nil pointer. -/
def DomainKeys (cr : Crypto) (env : Env) (fuel : Nat) (c : Checker) (domain : String) :
    Run (Option PublishedKeys × Option Err) :=
  match lookupAll env domain [TypeCDS, TypeCDNSKEY, TypeDNSKEY] [] c with
  | .crash => .crash
  | .fuel => .fuel
  | .ret (_, some e) c1 => .ret (none, some e) c1
  | .ret (answer, none) c1 =>
    match ValidKeys cr env fuel c1 answer with
    | .crash => .crash
    | .fuel => .fuel
    | .ret (signers, all) c2 => .ret (some (fillKeys signers all), none) c2

/-- The method `ParseTrustedKeyFile`, the `dns.TypeNS` case: a root hint is appended to
the authority of the root referral when its owner is ".". -/
def AddRootHint (c : Checker) (rr : RR) : Checker :=
  if rr.Name = "." then
    { c with heap := updateRef c.heap c.root (fun r => { r with authority := r.authority ++ [rr] }) }
  else c

/-! ## States and properties the theorems speak about -/

/-- The checker states the program can be in between two lookups: the state
made by `NewChecker`, then trusted keys and root hints loaded, then any number
of returning `QueryAtOrigin` calls against any environment. -/
inductive Reachable : Checker → Prop where
  | init : Reachable NewChecker
  | trust (c : Checker) (key : RR) : Reachable c → Reachable (AddTrustedKey c key)
  | hint (c : Checker) (rr : RR) : Reachable c → Reachable (AddRootHint c rr)
  | query (env : Env) (c : Checker) (name : String) (rtype : Nat)
      (res : List RR × Option Err) (c1 : Checker) :
      Reachable c → QueryAtOrigin env c name rtype = .ret res c1 → Reachable c1

/-- The referrals `GetReferral` can hand out: the root and the cache entries. -/
def cachedReferrals (c : Checker) : List Referral :=
  deref c.heap c.root :: c.referrals.map (fun e => deref c.heap e.2)

/-- The owner-name property of a referral: every authority record and every
answer record is owned by the origin. -/
def OwnedByOrigin (r : Referral) : Prop :=
  (∀ rr ∈ r.authority, rr.Name = r.origin) ∧ (∀ rr ∈ r.answer, rr.Name = r.origin)

/-- The owner-name property the resolver keeps: an authority record is owned by
the origin unless it is an NSEC, NSEC3 or RRSIG row. -/
def AuthorityOwned (r : Referral) : Prop :=
  ∀ rr ∈ r.authority, rr.Name = r.origin ∨ isNsecLike rr.Rrtype = true

/-- What a property of checker states must survive to be kept by the resolver:
a read of the environment, a cache read, `AddAnswer`, `AddReferral` of a row of
a referral section named `name`, and the in-place shuffle of an authority
list. -/
structure StepClosed (P : Checker → Prop) : Prop where
  tick : ∀ c t, P c → P { c with tick := t }
  get : ∀ env c name, P c → P (cacheGet env c name).2
  answer : ∀ env c name rr, P c → P (AddAnswer env c name rr)
  referral : ∀ env c name rr, P c → (rr.Name = name ∨ isNsecLike rr.Rrtype = true) →
    P (AddReferral env c name rr)
  shuffle : ∀ c p l t, P c → (∀ x ∈ l, x ∈ (deref c.heap p).authority) →
    P { c with heap := updateRef c.heap p (fun r => { r with authority := l }), tick := t }

/-- The states a run passes through: `Reaches env c c1` when `c1` is left by a
sequence of returning `QueryAtOrigin` calls against `env` that starts in
`c`. -/
inductive Reaches (env : Env) : Checker → Checker → Prop where
  | refl (c : Checker) : Reaches env c c
  | step (c c1 c2 : Checker) (name : String) (rtype : Nat) (res : List RR × Option Err) :
      Reaches env c c1 → QueryAtOrigin env c1 name rtype = .ret res c2 → Reaches env c c2

/-- The first steps of the loop body of `Validate` on the signature `sig` of a
call on the RRset `r`, in a run that started in `c`: the DNSKEY lookup at the
signer, made in a state of the run, returns `set` with a nil error and leaves
`c1`; `key` is the key of `set` that `GetKey` finds for the tag of `sig`; and
`ValidateOne r sig key` returns nil at the time read in `c1`. -/
def Accepted (cr : Crypto) (env : Env) (c : Checker) (r : List RR) (sig key : RR)
    (set : List RR) (c1 : Checker) : Prop :=
  ∃ c0, Reaches env c c0 ∧ Lookup env c0 sig.SignerName TypeDNSKEY = .ret (set, none) c1 ∧
    GetKey cr set sig.KeyTag = some key ∧ ValidateOne cr (env.now c1.tick) r sig key = none

/-- The calls of `Validate` that a call on `rrset` and `sigset` started in `c`
can make, directly or through nested calls, by the two recursive branches of
the source: after a signature of the calling RRset was accepted under an
untrusted key, either that key is in the calling RRset and the call is on the
signed DS records of the DS lookup at the signer, or it is not and the call is
on the signed DS or DNSKEY records of the DNSKEY lookup. -/
inductive Nested (cr : Crypto) (env : Env) (c : Checker) (rrset sigset : List RR) :
    List RR → List RR → Prop where
  | top : Nested cr env c rrset sigset rrset sigset
  | selfSigned (r s : List RR) (sig key : RR) (set : List RR) (c1 : Checker)
      (set2 : List RR) (c2 : Checker) :
      Nested cr env c rrset sigset r s → sig ∈ s → Accepted cr env c r sig key set c1 →
      (IsTrustedKey c1 key).2 = false → (GetKey cr r sig.KeyTag).isSome = true →
      Lookup env c1 sig.SignerName TypeDS = .ret (set2, none) c2 →
      Nested cr env c rrset sigset (SignedRecords set2 TypeDS).1 (SignedRecords set2 TypeDS).2
  | signer (r s : List RR) (sig key : RR) (set : List RR) (c1 : Checker) (rtype : Nat) :
      Nested cr env c rrset sigset r s → sig ∈ s → Accepted cr env c r sig key set c1 →
      (IsTrustedKey c1 key).2 = false → GetKey cr r sig.KeyTag = none →
      (rtype = TypeDS ∨ rtype = TypeDNSKEY) →
      Nested cr env c rrset sigset (SignedRecords set rtype).1 (SignedRecords set rtype).2

/-- What stands behind a label `L` returned by `Validate` on `rrset` and
`sigset` started in `c`: a call of the chain on an RRset `r` and signatures
`s`, a signature `sig` of `s` accepted against `r` under the key `key` found by
the lookup of the run, `IsTrustedKey` answering `L` for that key, and a
configured trust anchor owned by `L` with the public key of `key`. -/
def AnchorEvidence (cr : Crypto) (env : Env) (c : Checker) (rrset sigset : List RR)
    (L : String) : Prop :=
  ∃ (r s : List RR) (sig key : RR) (set : List RR) (c1 : Checker) (anchor : RR),
    Nested cr env c rrset sigset r s ∧ sig ∈ s ∧ Accepted cr env c r sig key set c1 ∧
    IsTrustedKey c1 key = (L, true) ∧
    anchor ∈ c.trustedKeys ∧ anchor.Name = L ∧ key.PublicKey = anchor.PublicKey

/-- The shape of the referral store that the resolver maintains: the root
pointer addresses a referral of origin ".", every cache entry addresses a
referral whose origin is its key, and every referral object satisfies
`AuthorityOwned`. -/
def HeapOK (heap : List Referral) (referrals : List (String × Nat)) (root : Nat) : Prop :=
  (∃ r, heap[root]? = some r ∧ r.origin = ".") ∧
  (∀ e ∈ referrals, ∃ r, heap[e.2]? = some r ∧ r.origin = e.1) ∧
  (∀ r ∈ heap, AuthorityOwned r)

def HeapInv (c : Checker) : Prop := HeapOK c.heap c.referrals c.root

/-! ## Concrete worlds -/

/-- A stand-in for the library: the key tag is the tag field, the digest of a
key is its public key, a signature is valid between inception and expiration
and verifies under the key whose tag it names and whose owner is its signer. -/
def demoCrypto : Crypto :=
  { KeyTag := fun rr => rr.KeyTag
    ToDS := fun key dt =>
      { ptr := 0, Name := key.Name, Rrtype := TypeDS, KeyTag := key.KeyTag, DigestType := dt,
        Digest := key.PublicKey }
    ValidityPeriod := fun sig now => decide (sig.Inception ≤ now ∧ now ≤ sig.Expiration)
    Verify := fun sig key _ =>
      if sig.KeyTag = key.KeyTag ∧ ToLower sig.SignerName = ToLower key.Name then none
      else some "dns: bad key" }

def childKey : RR :=
  { ptr := 10, Name := "example.", Rrtype := TypeDNSKEY, KeyTag := 111, PublicKey := "child-key" }

def childSig : RR :=
  { ptr := 11, Name := "example.", Rrtype := TypeRRSIG, TypeCovered := TypeDNSKEY, KeyTag := 111,
    SignerName := "example.", Expiration := 100 }

/-- A DS of the child zone that names another key. -/
def otherDS : RR :=
  { ptr := 12, Name := "example.", Rrtype := TypeDS, KeyTag := 999, DigestType := 2,
    Digest := "digest-of-another-key" }

def otherDSSig : RR :=
  { ptr := 13, Name := "example.", Rrtype := TypeRRSIG, TypeCovered := TypeDS, KeyTag := 1,
    SignerName := ".", Expiration := 100 }

def rootKey : RR :=
  { ptr := 14, Name := ".", Rrtype := TypeDNSKEY, KeyTag := 1, PublicKey := "root-key" }

def anchorKey : RR :=
  { ptr := 15, Name := ".", Rrtype := TypeDNSKEY, KeyTag := 1, PublicKey := "root-key" }

def childCDS : RR :=
  { ptr := 16, Name := "example.", Rrtype := TypeCDS, KeyTag := 111, DigestType := 2,
    Digest := "child-key" }

def childCDSSig : RR :=
  { ptr := 17, Name := "example.", Rrtype := TypeRRSIG, TypeCovered := TypeCDS, KeyTag := 111,
    SignerName := "example.", Expiration := 100 }

/-- An environment whose cache entries never lapse and whose exchanges are
given by `udp`. -/
def quietEnv (udp : String → Nat → Exchanged) : Env :=
  { udp := fun _ name rtype _ => udp name rtype
    tcp := fun _ _ _ _ => .fail none "tcp: not used"
    Intn := fun _ _ => 0
    now := fun _ => 50
    expired := fun _ _ => false }

/-- Every exchange fails. -/
def deadEnv : Env := quietEnv (fun _ _ => .fail none "i/o timeout")

/-- Every exchange is answered by an authoritative NXDOMAIN. -/
def nxEnv : Env :=
  quietEnv (fun _ _ => .ok { Rcode := RcodeNameError, Authoritative := true })

/-- Every exchange is answered by a well-formed referral to `com.`. -/
def referralEnv : Env :=
  quietEnv (fun _ _ =>
    .ok { Ns := [{ ptr := 1, Name := "com.", Rrtype := TypeNS, Ns := "ns.com." }] })

/-- The zone `example.` publishes a self-signed DNSKEY; its DS set, signed by
the root key, holds a DS of another key. -/
def chainEnv : Env :=
  quietEnv (fun name rtype =>
    if name = "example." ∧ rtype = TypeDNSKEY then
      .ok { Authoritative := true, Answer := [childKey, childSig] }
    else if name = "example." ∧ rtype = TypeDS then
      .ok { Authoritative := true, Answer := [otherDS, otherDSSig] }
    else if name = "." ∧ rtype = TypeDNSKEY then
      .ok { Authoritative := true, Answer := [rootKey] }
    else .ok { Authoritative := true })

/-- The zone `example.` answers the CDS question with a signed CDS; nothing
else is reachable. -/
def cdsEnv : Env :=
  quietEnv (fun name rtype =>
    if name = "example." ∧ rtype = TypeCDS then
      .ok { Authoritative := true, Answer := [childCDS, childCDSSig] }
    else .fail none "i/o timeout")

def comNS : RR := { ptr := 20, Name := "com.", Rrtype := TypeNS, Ns := "a.gtld-servers.net." }

/-- An NSEC3 row of the `com.` zone, owned by a hashed name. -/
def comNSEC3 : RR := { ptr := 21, Name := "ck0pojmg874ljref7efn8430qvit8bsm.com.", Rrtype := TypeNSEC3 }

def wwwA : RR := { ptr := 22, Name := "www.example.com.", Rrtype := 1 }

def apexSig : RR :=
  { ptr := 23, Name := "www.example.com.", Rrtype := TypeRRSIG, TypeCovered := 1, KeyTag := 7,
    SignerName := "example.com.", Expiration := 100 }

def apexKey : RR :=
  { ptr := 24, Name := "example.com.", Rrtype := TypeDNSKEY, KeyTag := 7, PublicKey := "zone-key" }

def parentDS : RR :=
  { ptr := 25, Name := "example.com.", Rrtype := TypeDS, KeyTag := 7, DigestType := 2,
    Digest := "zone-key" }

def parentDSSig : RR :=
  { ptr := 26, Name := "example.com.", Rrtype := TypeRRSIG, TypeCovered := TypeDS, KeyTag := 30,
    SignerName := "com.", Expiration := 100 }

def comKey : RR :=
  { ptr := 27, Name := "com.", Rrtype := TypeDNSKEY, KeyTag := 30, PublicKey := "com-key" }

/-- A signature over the apex of `example.com.` made by a zone below it. -/
def deepSig : RR :=
  { ptr := 28, Name := "example.com.", Rrtype := TypeRRSIG, TypeCovered := TypeDNSKEY, KeyTag := 7,
    SignerName := "www.example.com.", Expiration := 100 }

/-- The DNSKEY of `example.com.` as a server that keeps the case of the
question returns it, with its signature and its DS. -/
def mixedKey : RR :=
  { ptr := 33, Name := "Example.COM.", Rrtype := TypeDNSKEY, KeyTag := 7, PublicKey := "zone-key" }

def mixedSig : RR :=
  { ptr := 34, Name := "Example.COM.", Rrtype := TypeRRSIG, TypeCovered := TypeDNSKEY, KeyTag := 7,
    SignerName := "example.com.", Expiration := 100 }

def mixedDS : RR :=
  { ptr := 35, Name := "Example.COM.", Rrtype := TypeDS, KeyTag := 7, DigestType := 2,
    Digest := "zone-key" }

def mixedDSSig : RR :=
  { ptr := 36, Name := "Example.COM.", Rrtype := TypeRRSIG, TypeCovered := TypeDS, KeyTag := 7,
    SignerName := "example.com.", Expiration := 100 }

/-- The key of the zone `www.example.com.`. -/
def deepKey : RR :=
  { ptr := 32, Name := "www.example.com.", Rrtype := TypeDNSKEY, KeyTag := 7, PublicKey := "www-key" }

/-- A signature over the DS of `example.com.` made by `example.com.` itself. -/
def selfDSSig : RR :=
  { ptr := 29, Name := "example.com.", Rrtype := TypeRRSIG, TypeCovered := TypeDS, KeyTag := 7,
    SignerName := "example.com.", Expiration := 100 }

def wwwCNAME : RR := { ptr := 30, Name := "www.example.com.", Rrtype := 5 }

def webA : RR := { ptr := 31, Name := "web.example.net.", Rrtype := 1 }

/-- The root refers to `com.` with an NS row and an NSEC3 row; the server of
`com.` answers authoritatively with a CNAME and the record it points to. -/
def cnameEnv : Env :=
  { udp := fun _ _ _ ns =>
      if ns = "a.root-servers.net.:53" then .ok { Ns := [comNS, comNSEC3] }
      else .ok { Authoritative := true, Answer := [wwwCNAME, webA] }
    tcp := fun _ _ _ _ => .fail none "tcp: not used"
    Intn := fun _ _ => 0
    now := fun _ => 50
    expired := fun _ _ => false }

/-- The world of `chainEnv` at a time when every signature has expired. -/
def expiredEnv : Env := { chainEnv with now := fun _ => 200 }

/-- The state a call leaves; the initial state when it does not return. -/
def Run.stateD {α : Type} (r : Run α) : Checker := r.state?.getD NewChecker

/-- The checker with the root key loaded as trust anchor. -/
def anchored : Checker := AddTrustedKey NewChecker anchorKey

/-- The states of `DomainKeys expiredEnv anchored "example."`: after the three
lookups and after each `Validate`. -/
def expired1 : Checker :=
  (lookupAll expiredEnv "example." [TypeCDS, TypeCDNSKEY, TypeDNSKEY] [] anchored).stateD

def expired2 : Checker := (Validate demoCrypto expiredEnv 1 expired1 [] []).stateD

def expired3 : Checker := (Validate demoCrypto expiredEnv 1 expired2 [] []).stateD

def expired4 : Checker :=
  (Validate demoCrypto expiredEnv 1 expired3 [childKey] [childSig]).stateD

/-- The state after `www.example.com.` is resolved in `cnameEnv`. -/
def cnameState : Checker := (QueryAtOrigin cnameEnv NewChecker "www.example.com." 1).stateD

/-! ### Two zones that sign each other's DS -/

def nsA : RR := { ptr := 40, Name := "a.", Rrtype := TypeNS, Ns := "ns.a." }

def dsA : RR := { ptr := 41, Name := "a.", Rrtype := TypeDS, KeyTag := 1, DigestType := 2, Digest := "key-a" }

/-- The DS of `a.` is signed by the key of `b.`. -/
def sigDSA : RR :=
  { ptr := 42, Name := "a.", Rrtype := TypeRRSIG, TypeCovered := TypeDS, KeyTag := 2,
    SignerName := "b.", Expiration := 100 }

def keyA : RR := { ptr := 43, Name := "a.", Rrtype := TypeDNSKEY, KeyTag := 1, PublicKey := "key-a" }

def nsB : RR := { ptr := 44, Name := "b.", Rrtype := TypeNS, Ns := "ns.b." }

def dsB : RR := { ptr := 45, Name := "b.", Rrtype := TypeDS, KeyTag := 2, DigestType := 2, Digest := "key-b" }

/-- The DS of `b.` is signed by the key of `a.`. -/
def sigDSB : RR :=
  { ptr := 46, Name := "b.", Rrtype := TypeRRSIG, TypeCovered := TypeDS, KeyTag := 1,
    SignerName := "a.", Expiration := 100 }

def keyB : RR := { ptr := 47, Name := "b.", Rrtype := TypeDNSKEY, KeyTag := 2, PublicKey := "key-b" }

/-- The root refers to `a.` and to `b.` with their NS, DS and the signature of
the DS; the servers of the two zones answer the DNSKEY question with the key of
the zone. -/
def cycleEnv : Env :=
  { udp := fun _ name rtype ns =>
      if ns = "a.root-servers.net.:53" then
        if name = "a." then .ok { Ns := [nsA, dsA, sigDSA] } else .ok { Ns := [nsB, dsB, sigDSB] }
      else if rtype = TypeDNSKEY then
        if name = "a." then .ok { Authoritative := true, Answer := [keyA] }
        else .ok { Authoritative := true, Answer := [keyB] }
      else .ok { Authoritative := true }
    tcp := fun _ _ _ _ => .fail none "tcp: not used"
    Intn := fun _ _ => 0
    now := fun _ => 50
    expired := fun _ _ => false }

/-- The state after the first lookup of the cycle, the DNSKEY of `b.`. -/
def cycleCold : Checker := (Lookup cycleEnv NewChecker "b." TypeDNSKEY).stateD

/-- The state once both zones are cached, at tick `t`: every later lookup of
the cycle is served from the cache and changes the tick only. -/
def cycleWarm (t : Nat) : Checker :=
  { (Lookup cycleEnv cycleCold "a." TypeDNSKEY).stateD with tick := t }

/-- The state `Validate` leaves on the chain of `chainEnv` with the root key as
anchor. -/
def chainFinal : Checker :=
  (Validate demoCrypto chainEnv 2 anchored [childKey] [childSig]).stateD

/-- The state `DomainKeys` leaves on the chain of `chainEnv` without anchor. -/
def chainBare : Checker := (DomainKeys demoCrypto chainEnv 3 NewChecker "example.").stateD

/-! ## Theorems -/

theorem GetReferral_state (env : Env) (c : Checker) (name : String) :
    (GetReferral env c name).2 = (cacheGet env c name).2 := by
  unfold GetReferral
  split
  · rename_i p c1 heq; rw [heq]
  · rename_i c1 heq; rw [heq]; split <;> rfl

theorem GetReferral_closed {P : Checker → Prop} (hP : StepClosed P) (env : Env) (c : Checker)
    (name : String) (h : P c) : P (GetReferral env c name).2 := by
  rw [GetReferral_state]; exact hP.get env c name h

theorem Query_state (env : Env) (c : Checker) (domain : String) (rtype : Nat) (ns : String) :
    ∃ t, (Query env c domain rtype ns).2 = { c with tick := t } := by
  unfold Query
  split
  · exact ⟨_, rfl⟩
  · split
    · split <;> exact ⟨_, rfl⟩
    · exact ⟨_, rfl⟩

theorem Query_closed {P : Checker → Prop} (hP : StepClosed P) (env : Env) (c : Checker)
    (domain : String) (rtype : Nat) (ns : String) (h : P c) :
    P (Query env c domain rtype ns).2 := by
  obtain ⟨t, ht⟩ := Query_state env c domain rtype ns
  rw [ht]; exact hP.tick c t h

theorem firstReferral_closed {P : Checker → Prop} (hP : StepClosed P) (env : Env)
    (zones : List String) (c : Checker) (h : P c) : P (firstReferral env zones c).2 := by
  induction zones generalizing c with
  | nil => exact h
  | cons origin rest ih =>
    unfold firstReferral
    have hg := GetReferral_closed hP env c origin h
    split
    · rename_i p c1 heq
      rw [heq] at hg; exact hg
    · rename_i c1 heq
      rw [heq] at hg; exact ih c1 hg

theorem queryLoop_closed {P : Checker → Prop} (hP : StepClosed P) (env : Env) (name : String)
    (rtype : Nat) (nss : List String) (msg : Option Msg) (err : Option Err) (c : Checker)
    (h : P c) : P (queryLoop env name rtype nss msg err c).2 := by
  induction nss generalizing msg err c with
  | nil => exact h
  | cons ns rest ih =>
    unfold queryLoop
    have hq := Query_closed hP env c name rtype (JoinHostPort ns "53") h
    split
    · rename_i m c1 heq
      rw [heq] at hq; exact hq
    · rename_i m e c1 heq
      rw [heq] at hq; exact ih m (some e) c1 hq

theorem addReferrals_closed {P : Checker → Prop} (hP : StepClosed P) (env : Env)
    (child : String) (rrs : List RR) (ref : Option Nat) (c : Checker) (h : P c)
    (hrows : ∀ rr ∈ rrs, rr.Name = child ∨ isNsecLike rr.Rrtype = true) :
    P (addReferrals env child rrs ref c).2 := by
  induction rrs generalizing ref c with
  | nil => exact h
  | cons rr rest ih =>
    unfold addReferrals
    have ha := hP.referral env c child rr h (hrows rr (List.mem_cons_self _ _))
    have hg := GetReferral_closed hP env _ child ha
    split
    rename_i ref1 c1 heq
    rw [heq] at hg
    exact ih ref1 c1 hg (fun x hx => hrows x (List.mem_cons_of_mem _ hx))

theorem addAnswers_closed {P : Checker → Prop} (hP : StepClosed P) (env : Env) (name : String)
    (rrs : List RR) (c : Checker) (h : P c) :
    P (rrs.foldl (fun c rr => AddAnswer env c name rr) c) := by
  induction rrs generalizing c with
  | nil => exact h
  | cons rr rest ih =>
    rw [List.foldl_cons]
    exact ih _ (hP.answer env c name rr h)

theorem RrsetName_rows (rrset : List RR) (name : String)
    (h : RrsetName rrset = (name, none)) :
    ∀ rr ∈ rrset, rr.Name = name ∨ isNsecLike rr.Rrtype = true := by
  unfold RrsetName at h
  split at h
  · simp at h
  · rename_i first rest
    split at h
    · rename_i hall
      simp only [Prod.mk.injEq, and_true] at h
      rw [List.all_eq_true] at hall
      intro rr hrr
      have := hall rr hrr
      simpa [h] using this
    · simp at h

theorem classify_closed {P : Checker → Prop} (hP : StepClosed P) (env : Env) (name : String)
    (msg : Msg) (ref : Option Nat) (c : Checker) (h : P c) :
    (∀ res c1, classify env name msg ref c = .inl (res, c1) → P c1) ∧
    (∀ ref1 c1, classify env name msg ref c = .inr (ref1, c1) → P c1) := by
  unfold classify
  split
  · have hg := GetReferral_closed hP env _ name (addAnswers_closed hP env name msg.Answer c h)
    dsimp only
    split
    · rename_i q c2 heq
      rw [heq] at hg
      constructor
      · intro res c1 he
        simp only [Sum.inl.injEq, Prod.mk.injEq] at he
        rw [← he.2]; exact hg
      · intro ref1 c1 he; simp at he
    · rename_i c2 heq
      rw [heq] at hg
      constructor
      · intro res c1 he
        simp only [Sum.inl.injEq, Prod.mk.injEq] at he
        rw [← he.2]; exact hg
      · intro ref1 c1 he; simp at he
  · split
    · constructor
      · intro res c1 he
        simp only [Sum.inl.injEq, Prod.mk.injEq] at he
        rw [← he.2]; exact h
      · intro ref1 c1 he; simp at he
    · rename_i child heq
      constructor
      · intro res c1 he; simp at he
      · intro ref1 c1 he
        simp only [Sum.inr.injEq] at he
        have hc := addReferrals_closed hP env child msg.Ns ref c h (RrsetName_rows _ _ heq)
        rw [he] at hc; exact hc

theorem swapAt_mem (a : List RR) (i j : Nat) : ∀ x ∈ swapAt a i j, x ∈ a := by
  intro x hx
  unfold swapAt at hx
  split at hx
  · rename_i u v hu hv
    have h1 := List.mem_or_eq_of_mem_set hx
    rcases h1 with h1 | h1
    · have h2 := List.mem_or_eq_of_mem_set h1
      rcases h2 with h2 | h2
      · exact h2
      · rw [h2]; exact List.get?_mem hv
    · rw [h1]; exact List.get?_mem hu
  · exact hx

theorem shuffleFrom_mem (env : Env) (n i tick : Nat) (a : List RR) :
    ∀ x ∈ (shuffleFrom env n i tick a).1, x ∈ a := by
  induction n generalizing i tick a with
  | zero => intro x hx; exact hx
  | succ n ih =>
    intro x hx
    unfold shuffleFrom at hx
    exact swapAt_mem _ _ _ x (ih _ _ _ x hx)

theorem queryFrom_closed {P : Checker → Prop} (hP : StepClosed P) (env : Env) (name : String)
    (rtype : Nat) (n : Nat) (ref : Option Nat) (err : Option Err) (c : Checker) (h : P c)
    (res : List RR × Option Err) (c1 : Checker)
    (hrun : queryFrom env name rtype n ref err c = .ret res c1) : P c1 := by
  induction n generalizing ref err c with
  | zero =>
    unfold queryFrom at hrun
    simp only [Run.ret.injEq] at hrun
    rw [← hrun.2]; exact h
  | succ n ih =>
    cases ref with
    | none => unfold queryFrom at hrun; simp at hrun
    | some p =>
      unfold queryFrom at hrun
      dsimp only [GetNS] at hrun
      split at hrun
      · have hmem : ∀ x ∈ (Shuffle env c.tick (deref c.heap p).authority).1,
            x ∈ (deref c.heap p).authority :=
          shuffleFrom_mem env (deref c.heap p).authority.length 0 c.tick (deref c.heap p).authority
        have h1 := hP.shuffle c p _ (Shuffle env c.tick (deref c.heap p).authority).2 h hmem
        have h2 := queryLoop_closed hP env name rtype
          (((Shuffle env c.tick (deref c.heap p).authority).1.filter
            (fun rr => rr.Rrtype == TypeNS)).map (fun rr => rr.Ns)) none err _ h1
        split at hrun
        · rename_i e c2 heq
          rw [heq] at h2
          simp only [Run.ret.injEq] at hrun
          rw [← hrun.2]; exact h2
        · rename_i msg err1 c2 heq
          rw [heq] at h2
          have hc := classify_closed hP env name msg (some p) c2 h2
          split at hrun
          · rename_i r c3 hcl
            simp only [Run.ret.injEq] at hrun
            rw [← hrun.2]; exact hc.1 r c3 hcl
          · rename_i ref1 c3 hcl
            exact ih ref1 err1 c3 (hc.2 ref1 c3 hcl) hrun
      · have hc := classify_closed hP env name
          { Authoritative := true, Answer := GetRRs (deref c.heap p).answer name rtype } (some p) c h
        split at hrun
        · rename_i r c3 hcl
          simp only [Run.ret.injEq] at hrun
          rw [← hrun.2]; exact hc.1 r c3 hcl
        · rename_i ref1 c3 hcl
          exact ih ref1 err c3 (hc.2 ref1 c3 hcl) hrun

/-- Every property closed under the resolver steps is kept by a returning
`QueryAtOrigin`. -/
theorem QueryAtOrigin_closed {P : Checker → Prop} (hP : StepClosed P) (env : Env) (c : Checker)
    (name : String) (rtype : Nat) (h : P c) (res : List RR × Option Err) (c1 : Checker)
    (hrun : QueryAtOrigin env c name rtype = .ret res c1) : P c1 := by
  unfold QueryAtOrigin at hrun
  split at hrun
  · simp at hrun
  · rename_i p c0 heq
    have h0 : P c0 := by
      by_cases hds : rtype = TypeDS
      · rw [if_pos hds] at heq
        have := GetReferral_closed hP env c "." h
        rw [heq] at this; exact this
      · rw [if_neg hds] at heq
        have := firstReferral_closed hP env (Walk name) c h
        rw [heq] at this; exact this
    exact queryFrom_closed hP env name rtype 10 (some p) none c0 h0 res c1 hrun

theorem cacheGet_trustedKeys (env : Env) (c : Checker) (name : String) :
    (cacheGet env c name).2.trustedKeys = c.trustedKeys := by
  unfold cacheGet
  split
  · rfl
  · split <;> rfl

theorem ensureReferral_trustedKeys (env : Env) (c : Checker) (name : String) :
    (ensureReferral env c name).2.trustedKeys = c.trustedKeys := by
  unfold ensureReferral
  have h := cacheGet_trustedKeys env c name
  rw [← GetReferral_state] at h
  split
  · rename_i p c1 heq
    rw [heq] at h; exact h
  · rename_i c1 heq
    rw [heq] at h
    exact h

/-- The list of trusted keys is closed under the resolver steps. -/
theorem trustedKeys_closed (K : List RR) : StepClosed (fun c => c.trustedKeys = K) where
  tick := fun _ _ h => h
  get := fun env c name h => by rw [cacheGet_trustedKeys]; exact h
  answer := fun env c name rr h => by
    unfold AddAnswer
    have h1 := ensureReferral_trustedKeys env c name
    split
    rename_i p c1 heq
    rw [heq] at h1
    exact h1.trans h
  referral := fun env c name rr h _ => by
    unfold AddReferral
    have h1 := ensureReferral_trustedKeys env c name
    split
    rename_i p c1 heq
    rw [heq] at h1
    exact h1.trans h
  shuffle := fun _ _ _ _ h _ => h

theorem Lookup_trustedKeys (env : Env) (c : Checker) (name : String) (rtype : Nat)
    (res : List RR × Option Err) (c1 : Checker)
    (hrun : Lookup env c name rtype = .ret res c1) : c1.trustedKeys = c.trustedKeys :=
  QueryAtOrigin_closed (trustedKeys_closed c.trustedKeys) env c name rtype rfl res c1 hrun

theorem GetKey_some (cr : Crypto) (set : List RR) (tag : Nat) (key : RR)
    (h : GetKey cr set tag = some key) :
    key ∈ set ∧ key.Rrtype = TypeDNSKEY ∧ cr.KeyTag key = tag := by
  unfold GetKey at h
  have h1 := List.find?_some h
  have h2 := List.mem_of_find?_eq_some h
  simp only [Bool.and_eq_true, beq_iff_eq] at h1
  exact ⟨h2, h1.1, h1.2⟩

theorem IsTrustedKey_true (c : Checker) (key : RR) (name : String)
    (h : IsTrustedKey c key = (name, true)) :
    ∃ anchor ∈ c.trustedKeys, anchor.Name = name ∧ key.PublicKey = anchor.PublicKey := by
  unfold IsTrustedKey at h
  split at h
  · rename_i other hfind
    simp only [Prod.mk.injEq, and_true] at h
    have h1 := List.find?_some hfind
    have h2 := List.mem_of_find?_eq_some hfind
    simp only [beq_iff_eq] at h1
    exact ⟨other, h2, h, h1⟩
  · simp at h

theorem Reaches_trans (env : Env) (c c1 c2 : Checker) (h1 : Reaches env c c1)
    (h2 : Reaches env c1 c2) : Reaches env c c2 := by
  induction h2 with
  | refl => exact h1
  | step ca cb name rtype res _ hq ih => exact Reaches.step c ca cb name rtype res ih hq

theorem Reaches_lookup (env : Env) (c c1 c2 : Checker) (name : String) (rtype : Nat)
    (res : List RR × Option Err) (h : Reaches env c c1)
    (hl : Lookup env c1 name rtype = .ret res c2) : Reaches env c c2 :=
  Reaches.step c c1 c2 name rtype res h hl

theorem Reaches_trustedKeys (env : Env) (c c1 : Checker) (h : Reaches env c c1) :
    c1.trustedKeys = c.trustedKeys := by
  induction h with
  | refl => rfl
  | step ca cb name rtype res _ hq ih =>
    exact (Lookup_trustedKeys env ca name rtype res cb hq).trans ih

theorem Accepted_lift (cr : Crypto) (env : Env) (c c2 : Checker) (hreach : Reaches env c c2)
    (r : List RR) (sig key : RR) (set : List RR) (c1 : Checker)
    (h : Accepted cr env c2 r sig key set c1) : Accepted cr env c r sig key set c1 := by
  obtain ⟨c0, h0, hl, hk, hv⟩ := h
  exact ⟨c0, Reaches_trans env c c2 c0 hreach h0, hl, hk, hv⟩

theorem Nested_lift (cr : Crypto) (env : Env) (c c2 : Checker) (rrset sigset r2 s2 r s : List RR)
    (hreach : Reaches env c c2) (hn : Nested cr env c rrset sigset r2 s2)
    (h : Nested cr env c2 r2 s2 r s) : Nested cr env c rrset sigset r s := by
  induction h with
  | top => exact hn
  | selfSigned ra sa sig key set c1 set2 c3 _ hmem hacc htr hkey hl ih =>
    exact Nested.selfSigned ra sa sig key set c1 set2 c3 ih hmem
      (Accepted_lift cr env c c2 hreach ra sig key set c1 hacc) htr hkey hl
  | signer ra sa sig key set c1 rtype _ hmem hacc htr hkey hty ih =>
    exact Nested.signer ra sa sig key set c1 rtype ih hmem
      (Accepted_lift cr env c c2 hreach ra sig key set c1 hacc) htr hkey hty

theorem AnchorEvidence_lift (cr : Crypto) (env : Env) (c c2 : Checker)
    (rrset sigset r2 s2 : List RR) (L : String)
    (hreach : Reaches env c c2) (hn : Nested cr env c rrset sigset r2 s2)
    (h : AnchorEvidence cr env c2 r2 s2 L) : AnchorEvidence cr env c rrset sigset L := by
  obtain ⟨r, s, sig, key, set, c1, anchor, hnest, hmem, hacc, htr, ha, hname, hpk⟩ := h
  refine ⟨r, s, sig, key, set, c1, anchor,
    Nested_lift cr env c c2 rrset sigset r2 s2 r s hreach hn hnest, hmem,
    Accepted_lift cr env c c2 hreach r sig key set c1 hacc, htr, ?_, hname, hpk⟩
  rw [← Reaches_trustedKeys env c c2 hreach]; exact ha

/-- What a returning run of the loop of `Validate` guarantees, the nested calls
guaranteeing the same. -/
theorem validateLoop_evidence (cr : Crypto) (env : Env)
    (recur : Checker → List RR → List RR → Run String)
    (hrec : ∀ c2 r2 s2 L c3, recur c2 r2 s2 = .ret L c3 →
      Reaches env c2 c3 ∧ (L ≠ "" → AnchorEvidence cr env c2 r2 s2 L))
    (c : Checker) (rrset sigset rest : List RR) (ca : Checker) (L : String) (c1 : Checker)
    (hsub : ∀ x ∈ rest, x ∈ sigset) (hreach : Reaches env c ca)
    (hrun : validateLoop cr env recur rrset rest ca = .ret L c1) :
    Reaches env c c1 ∧ (L ≠ "" → AnchorEvidence cr env c rrset sigset L) := by
  induction rest generalizing ca with
  | nil =>
    unfold validateLoop at hrun
    simp only [Run.ret.injEq] at hrun
    rw [← hrun.1, ← hrun.2]
    exact ⟨hreach, fun h => absurd rfl h⟩
  | cons sig rest ih =>
    have hsig : sig ∈ sigset := hsub sig (List.mem_cons_self _ _)
    have hrest : ∀ x ∈ rest, x ∈ sigset := fun x hx => hsub x (List.mem_cons_of_mem _ hx)
    unfold validateLoop at hrun
    split at hrun
    · simp at hrun
    · simp at hrun
    · rename_i set e cb hl
      exact ih cb hrest (Reaches_lookup env c ca cb _ _ _ hreach hl) hrun
    · rename_i set cb hl
      have hrb : Reaches env c cb := Reaches_lookup env c ca cb _ _ _ hreach hl
      split at hrun
      · exact ih cb hrest hrb hrun
      · rename_i key hkey
        split at hrun
        · exact ih cb hrest hrb hrun
        · rename_i hval
          have hacc : Accepted cr env c rrset sig key set cb := ⟨ca, hreach, hl, hkey, hval⟩
          split at hrun
          · rename_i name htr
            simp only [Run.ret.injEq] at hrun
            rw [← hrun.1, ← hrun.2]
            refine ⟨hrb, fun _ => ?_⟩
            obtain ⟨anchor, hmem, hname, hpk⟩ := IsTrustedKey_true cb key name htr
            rw [Reaches_trustedKeys env c cb hrb] at hmem
            exact ⟨rrset, sigset, sig, key, set, cb, anchor, Nested.top, hsig, hacc, htr, hmem,
              hname, hpk⟩
          · rename_i x htr
            have hun : (IsTrustedKey cb key).2 = false := by rw [htr]
            split at hrun
            · rename_i k2 hk2
              have hsome : (GetKey cr rrset sig.KeyTag).isSome = true := by rw [hk2]; rfl
              split at hrun
              · simp at hrun
              · simp at hrun
              · rename_i set2 e cc hl2
                exact ih cc hrest (Reaches_lookup env c cb cc _ _ _ hrb hl2) hrun
              · rename_i set2 cc hl2
                have hrc : Reaches env c cc := Reaches_lookup env c cb cc _ _ _ hrb hl2
                have hn : Nested cr env c rrset sigset (SignedRecords set2 TypeDS).1
                    (SignedRecords set2 TypeDS).2 :=
                  Nested.selfSigned rrset sigset sig key set cb set2 cc Nested.top hsig hacc hun
                    hsome hl2
                split at hrun
                · simp at hrun
                · simp at hrun
                · rename_i trusted cd hr
                  have hd := hrec cc _ _ trusted cd hr
                  have hrd : Reaches env c cd := Reaches_trans env c cc cd hrc hd.1
                  split at hrun
                  · rename_i hne
                    simp only [Run.ret.injEq] at hrun
                    rw [← hrun.1, ← hrun.2]
                    exact ⟨hrd, fun _ =>
                      AnchorEvidence_lift cr env c cc rrset sigset _ _ trusted hrc hn (hd.2 hne)⟩
                  · exact ih cd hrest hrd hrun
            · rename_i hk2
              have hn : ∀ rtype, rtype = TypeDS ∨ rtype = TypeDNSKEY →
                  Nested cr env c rrset sigset (SignedRecords set rtype).1
                    (SignedRecords set rtype).2 :=
                fun rtype hty =>
                  Nested.signer rrset sigset sig key set cb rtype Nested.top hsig hacc hun hk2 hty
              split at hrun
              · simp at hrun
              · simp at hrun
              · rename_i trusted cc hr
                have hc := hrec cb _ _ trusted cc hr
                have hrc : Reaches env c cc := Reaches_trans env c cb cc hrb hc.1
                split at hrun
                · rename_i hne
                  simp only [Run.ret.injEq] at hrun
                  rw [← hrun.1, ← hrun.2]
                  exact ⟨hrc, fun _ =>
                    AnchorEvidence_lift cr env c cb rrset sigset _ _ trusted hrb
                      (hn TypeDS (Or.inl rfl)) (hc.2 hne)⟩
                · split at hrun
                  · simp at hrun
                  · simp at hrun
                  · rename_i trusted2 cd hr2
                    have hd := hrec cc _ _ trusted2 cd hr2
                    have hrd : Reaches env c cd := Reaches_trans env c cc cd hrc hd.1
                    split at hrun
                    · rename_i hne
                      simp only [Run.ret.injEq] at hrun
                      rw [← hrun.1, ← hrun.2]
                      exact ⟨hrd, fun _ =>
                        AnchorEvidence_lift cr env c cc rrset sigset _ _ trusted2 hrc
                          (hn TypeDNSKEY (Or.inr rfl)) (hd.2 hne)⟩
                    · exact ih cd hrest hrd hrun

theorem Validate_evidence (cr : Crypto) (env : Env) (fuel : Nat) (c : Checker)
    (rrset sigset : List RR) (L : String) (c1 : Checker)
    (hrun : Validate cr env fuel c rrset sigset = .ret L c1) :
    Reaches env c c1 ∧ (L ≠ "" → AnchorEvidence cr env c rrset sigset L) := by
  induction fuel generalizing c rrset sigset L c1 with
  | zero =>
    unfold Validate at hrun
    simp at hrun
  | succ fuel ih =>
    unfold Validate at hrun
    exact validateLoop_evidence cr env (Validate cr env fuel)
      (fun c2 r2 s2 L2 c3 h => ih c2 r2 s2 L2 c3 h) c rrset sigset sigset c L c1
      (fun _ hx => hx) (Reaches.refl c) hrun

theorem AnchorEvidence_no_anchor (cr : Crypto) (env : Env) (c : Checker)
    (rrset sigset : List RR) (L : String) (hK : c.trustedKeys = []) :
    ¬ AnchorEvidence cr env c rrset sigset L := by
  rintro ⟨r, s, sig, key, set, c1, anchor, _, _, _, _, ha, _⟩
  rw [hK] at ha
  simp at ha

theorem validKeysLoop_no_anchor (cr : Crypto) (env : Env) (fuel : Nat) (rrset : List RR)
    (types : List Nat) (result : List RR) (c : Checker) (signers : List String) (all : List RR)
    (c1 : Checker) (hK : c.trustedKeys = [])
    (hrun : validKeysLoop cr env fuel rrset types [] result c = .ret (signers, all) c1) :
    signers = [] := by
  induction types generalizing c result with
  | nil =>
    unfold validKeysLoop at hrun
    simp only [Run.ret.injEq, Prod.mk.injEq] at hrun
    exact hrun.1.1.symm
  | cons rtype rest ih =>
    unfold validKeysLoop at hrun
    split at hrun
    · simp at hrun
    · simp at hrun
    · rename_i valid ca hv
      have hs := Validate_evidence cr env fuel c _ _ valid ca hv
      split at hrun
      · rename_i hne
        exact absurd (hs.2 hne) (AnchorEvidence_no_anchor cr env c _ _ valid hK)
      · exact ih result ca ((Reaches_trustedKeys env c ca hs.1).trans hK) hrun

theorem lookupAll_trustedKeys (env : Env) (domain : String) (types : List Nat)
    (answer : List RR) (c : Checker) (res : List RR × Option Err) (c1 : Checker)
    (hrun : lookupAll env domain types answer c = .ret res c1) :
    c1.trustedKeys = c.trustedKeys := by
  induction types generalizing answer c with
  | nil =>
    unfold lookupAll at hrun
    simp only [Run.ret.injEq] at hrun
    rw [← hrun.2]
  | cons rtype rest ih =>
    unfold lookupAll at hrun
    split at hrun
    · simp at hrun
    · simp at hrun
    · rename_i set e ca hl
      simp only [Run.ret.injEq] at hrun
      rw [← hrun.2]
      exact Lookup_trustedKeys env c _ _ _ ca hl
    · rename_i auth ca hl
      exact (ih _ ca hrun).trans (Lookup_trustedKeys env c _ _ _ ca hl)

/-- Claim C6, amended: whenever `Validate` returns a non-empty label `L`, some
signature of a call in the chain was accepted by `ValidateOne` under the key
that `GetKey` found in the DNSKEY lookup at its signer, `IsTrustedKey` answered
`L` for that key, and `L` is the owner name of a configured trust anchor with
the public key of that key; with no trust anchor configured, whatever `Validate`
returns is the empty string and whatever keys `DomainKeys` returns have no
signers (nothing is said of whether they return). -/
theorem Validate_returns_anchor_label (cr : Crypto) (env : Env) (fuel : Nat) (c : Checker) :
    (∀ rrset sigset L c1, Validate cr env fuel c rrset sigset = .ret L c1 → L ≠ "" →
      AnchorEvidence cr env c rrset sigset L) ∧
    (c.trustedKeys = [] →
      (∀ rrset sigset L c1, Validate cr env fuel c rrset sigset = .ret L c1 → L = "") ∧
      (∀ domain keys err c1, DomainKeys cr env fuel c domain = .ret (some keys, err) c1 →
        keys.Signers = [])) := by
  refine ⟨fun rrset sigset L c1 hrun hL =>
      (Validate_evidence cr env fuel c rrset sigset L c1 hrun).2 hL,
    fun hK => ⟨?_, ?_⟩⟩
  · intro rrset sigset L c1 hrun
    by_contra hne
    exact AnchorEvidence_no_anchor cr env c rrset sigset L hK
      ((Validate_evidence cr env fuel c rrset sigset L c1 hrun).2 hne)
  · intro domain keys err c1 hrun
    unfold DomainKeys at hrun
    split at hrun
    · simp at hrun
    · simp at hrun
    · simp at hrun
    · rename_i answer ca hl
      have hKa : ca.trustedKeys = [] := (lookupAll_trustedKeys env domain _ _ c _ ca hl).trans hK
      split at hrun
      · simp at hrun
      · simp at hrun
      · rename_i signers all cb hv
        unfold ValidKeys at hv
        have hs := validKeysLoop_no_anchor cr env fuel answer _ [] ca signers all cb hKa hv
        simp only [Run.ret.injEq, Prod.mk.injEq, Option.some.injEq] at hrun
        rw [← hrun.1.1, hs]
        rfl

theorem lookup_mem (l : List (String × Nat)) (k : String) (p : Nat)
    (h : l.lookup k = some p) : (k, p) ∈ l := by
  induction l with
  | nil => simp at h
  | cons e rest ih =>
    obtain ⟨k1, p1⟩ := e
    rw [List.lookup_cons] at h
    split at h
    · rename_i hk
      simp only [beq_iff_eq] at hk
      simp only [Option.some.injEq] at h
      rw [hk, h]; exact List.mem_cons_self _ _
    · exact List.mem_cons_of_mem _ (ih h)

theorem deref_of_get (heap : List Referral) (p : Nat) (r : Referral)
    (h : heap[p]? = some r) : deref heap p = r := by
  simp [deref, h]

theorem HeapOK_updateRef (heap : List Referral) (referrals : List (String × Nat)) (root p : Nat)
    (f : Referral → Referral) (h : HeapOK heap referrals root)
    (hf : ∀ r, heap[p]? = some r → (f r).origin = r.origin ∧ AuthorityOwned (f r)) :
    HeapOK (updateRef heap p f) referrals root := by
  unfold updateRef
  split
  · rename_i r hr
    rw [List.get?_eq_getElem?] at hr
    have hlt : p < heap.length := (List.getElem?_eq_some.mp hr).1
    have hget : ∀ (q : Nat) (s : Referral), heap[q]? = some s →
        ∃ s1, (heap.set p (f r))[q]? = some s1 ∧ s1.origin = s.origin := by
      intro q s hs
      rw [List.getElem?_set]
      by_cases hpq : p = q
      · subst hpq
        rw [hr] at hs
        simp only [Option.some.injEq] at hs
        simp only [if_true, hlt]
        exact ⟨f r, rfl, hs ▸ (hf r hr).1⟩
      · simp only [hpq, if_false]
        exact ⟨s, hs, rfl⟩
    refine ⟨?_, ?_, ?_⟩
    · obtain ⟨s, hs, ho⟩ := h.1
      obtain ⟨s1, h1, h2⟩ := hget root s hs
      exact ⟨s1, h1, h2.trans ho⟩
    · intro e he
      obtain ⟨s, hs, ho⟩ := h.2.1 e he
      obtain ⟨s1, h1, h2⟩ := hget e.2 s hs
      exact ⟨s1, h1, h2.trans ho⟩
    · intro s hs
      rcases List.mem_or_eq_of_mem_set hs with h1 | h1
      · exact h.2.2 s h1
      · rw [h1]; exact (hf r hr).2
  · exact h

theorem HeapInv_cacheGet (env : Env) (c : Checker) (name : String) (h : HeapInv c) :
    HeapInv (cacheGet env c name).2 := by
  unfold cacheGet
  split
  · exact h
  · split
    · exact ⟨h.1, fun e he => h.2.1 e (List.mem_of_mem_filter he), h.2.2⟩
    · exact h

theorem GetReferral_origin (env : Env) (c : Checker) (name : String) (h : HeapInv c)
    (p : Nat) (c1 : Checker) (hg : GetReferral env c name = (some p, c1)) :
    ∃ r, c1.heap[p]? = some r ∧ r.origin = name := by
  unfold GetReferral at hg
  split at hg
  · rename_i q c2 hc
    simp only [Prod.mk.injEq, Option.some.injEq] at hg
    unfold cacheGet at hc
    split at hc
    · simp at hc
    · rename_i q1 hl
      split at hc
      · simp at hc
      · simp only [Prod.mk.injEq, Option.some.injEq] at hc
        have := h.2.1 (name, q1) (lookup_mem _ _ _ hl)
        rw [← hg.1, ← hg.2, ← hc.1, ← hc.2]
        exact this
  · rename_i c2 hc
    split at hg
    · rename_i hname
      simp only [Prod.mk.injEq, Option.some.injEq] at hg
      have h2 := HeapInv_cacheGet env c name h
      rw [hc] at h2
      rw [← hg.1, ← hg.2, hname]
      exact h2.1
    · simp at hg

theorem ensureReferral_spec (env : Env) (c : Checker) (name : String) (h : HeapInv c) :
    HeapInv (ensureReferral env c name).2 ∧
    ∃ r, (ensureReferral env c name).2.heap[(ensureReferral env c name).1]? = some r ∧
      r.origin = name := by
  unfold ensureReferral
  have hinv : HeapInv (GetReferral env c name).2 := by
    rw [GetReferral_state]; exact HeapInv_cacheGet env c name h
  split
  · rename_i p c1 hg
    rw [hg] at hinv
    exact ⟨hinv, GetReferral_origin env c name h p c1 hg⟩
  · rename_i c1 hg
    rw [hg] at hinv
    have hnew : (c1.heap ++ [({ origin := name } : Referral)])[c1.heap.length]? =
        some { origin := name } := by
      simp
    have hold : ∀ (q : Nat) (s : Referral), c1.heap[q]? = some s →
        (c1.heap ++ [({ origin := name } : Referral)])[q]? = some s := by
      intro q s hs
      have hlt : q < c1.heap.length := (List.getElem?_eq_some.mp hs).1
      rw [List.getElem?_append_left hlt]; exact hs
    refine ⟨⟨?_, ?_, ?_⟩, ⟨_, hnew, rfl⟩⟩
    · obtain ⟨s, hs, ho⟩ := hinv.1
      exact ⟨s, hold _ s hs, ho⟩
    · intro e he
      simp only [cacheSet, List.mem_cons] at he
      rcases he with he | he
      · rw [he]; exact ⟨_, hnew, rfl⟩
      · obtain ⟨s, hs, ho⟩ := hinv.2.1 e (List.mem_of_mem_filter he)
        exact ⟨s, hold _ s hs, ho⟩
    · intro s hs
      simp only [cacheSet, List.mem_append, List.mem_singleton] at hs
      rcases hs with hs | hs
      · exact hinv.2.2 s hs
      · rw [hs]; intro rr hrr; simp at hrr

/-- The shape of the referral store is closed under the resolver steps. -/
theorem HeapInv_closed : StepClosed HeapInv where
  tick := fun _ _ h => h
  get := HeapInv_cacheGet
  answer := fun env c name rr h => by
    unfold AddAnswer
    have hs := (ensureReferral_spec env c name h).1
    split
    rename_i p c1 heq
    rw [heq] at hs
    refine HeapOK_updateRef c1.heap c1.referrals c1.root p _ hs (fun r hr => ?_)
    split
    · exact ⟨rfl, hs.2.2 r (List.getElem?_mem hr)⟩
    · exact ⟨rfl, hs.2.2 r (List.getElem?_mem hr)⟩
  referral := fun env c name rr h hrow => by
    unfold AddReferral
    have hs := ensureReferral_spec env c name h
    split
    rename_i p c1 heq
    rw [heq] at hs
    obtain ⟨hinv, r0, hr0, ho⟩ := hs
    refine HeapOK_updateRef c1.heap c1.referrals c1.root p _ hinv (fun r hr => ?_)
    have hrr : r = r0 := by
      have : some r = some r0 := hr.symm.trans hr0
      exact Option.some.inj this
    split
    · exact ⟨rfl, hinv.2.2 r (List.getElem?_mem hr)⟩
    · refine ⟨rfl, ?_⟩
      intro x hx
      simp only [List.mem_append, List.mem_singleton] at hx
      rcases hx with hx | hx
      · exact hinv.2.2 r (List.getElem?_mem hr) x hx
      · rw [hx]
        show rr.Name = r.origin ∨ _
        rw [hrr, ho]; exact hrow
  shuffle := fun c p l t h hl => by
    refine HeapOK_updateRef c.heap c.referrals c.root p _ h (fun r hr => ⟨rfl, ?_⟩)
    intro x hx
    have := hl x hx
    rw [deref_of_get c.heap p r hr] at this
    exact h.2.2 r (List.getElem?_mem hr) x this

theorem Reachable_HeapInv (c : Checker) (h : Reachable c) : HeapInv c := by
  induction h with
  | init =>
    refine ⟨⟨_, rfl, rfl⟩, ?_, ?_⟩
    · intro e he; simp [NewChecker] at he
    · intro r hr
      simp only [NewChecker, List.mem_singleton] at hr
      rw [hr]
      intro rr hrr
      simp only [List.mem_singleton] at hrr
      rw [hrr]; exact Or.inl rfl
  | trust c key _ ih => exact ih
  | hint c rr _ ih =>
    unfold AddRootHint
    split
    · rename_i hname
      refine HeapOK_updateRef c.heap c.referrals c.root c.root _ ih (fun r hr => ⟨rfl, ?_⟩)
      intro x hx
      simp only [List.mem_append, List.mem_singleton] at hx
      rcases hx with hx | hx
      · exact ih.2.2 r (List.getElem?_mem hr) x hx
      · obtain ⟨r0, hr0, ho⟩ := ih.1
        have hrr : r = r0 := Option.some.inj (hr.symm.trans hr0)
        rw [hx]
        exact Or.inl (by show rr.Name = r.origin; rw [hrr, ho, hname])
    · exact ih
  | query env c name rtype res c1 _ hrun ih =>
    exact QueryAtOrigin_closed HeapInv_closed env c name rtype ih res c1 hrun

/-- Claim C8, amended: in every reachable state, each record in the authority list
of a referral the cache can hand out is owned by the origin of that referral or
is an NSEC, NSEC3 or RRSIG row, the root referral has origin "." and each cache
entry is stored under its origin.  Nothing is claimed of the answer lists. -/
theorem Reachable_authority_owned (c : Checker) (h : Reachable c) :
    (∀ r ∈ cachedReferrals c, AuthorityOwned r) ∧
    (deref c.heap c.root).origin = "." ∧
    (∀ e ∈ c.referrals, (deref c.heap e.2).origin = e.1) := by
  have hinv := Reachable_HeapInv c h
  refine ⟨?_, ?_, ?_⟩
  · intro r hr
    simp only [cachedReferrals, List.mem_cons, List.mem_map] at hr
    rcases hr with hr | ⟨e, he, hr⟩
    · obtain ⟨s, hs, _⟩ := hinv.1
      rw [hr, deref_of_get _ _ _ hs]
      exact hinv.2.2 s (List.getElem?_mem hs)
    · obtain ⟨s, hs, _⟩ := hinv.2.1 e he
      rw [← hr, deref_of_get _ _ _ hs]
      exact hinv.2.2 s (List.getElem?_mem hs)
  · obtain ⟨s, hs, ho⟩ := hinv.1
    rw [deref_of_get _ _ _ hs]; exact ho
  · intro e he
    obtain ⟨s, hs, ho⟩ := hinv.2.1 e he
    rw [deref_of_get _ _ _ hs]; exact ho

/-! ### Signer scope (`ValidateOne`) -/

theorem commonLen_eq_length_iff (a b : List (List Char)) :
    commonLen a b = a.length ↔
      a.map (fun l => l.map Char.toLower) <+: b.map (fun l => l.map Char.toLower) := by
  induction a generalizing b with
  | nil => simp [commonLen]
  | cons x xs ih =>
    cases b with
    | nil => simp [commonLen]
    | cons y ys =>
      by_cases h : x.map Char.toLower = y.map Char.toLower
      · simp [commonLen, equal, h, ih, List.cons_prefix_cons]
      · simp [commonLen, equal, h, List.cons_prefix_cons]

theorem labelPieces_ne_nil (n : Nat) (rest : List Char) : labelPieces (n + 1) rest ≠ [] := by
  unfold labelPieces
  split <;> simp

/-- The test `IsSubDomain parent child` holds exactly when the labels of
`parent` are, ignoring ASCII case, a suffix of the labels of `child`. -/
theorem IsSubDomain_iff_suffix (parent child : String) :
    IsSubDomain parent child = true ↔ lowerLabels parent <:+ lowerLabels child := by
  unfold IsSubDomain CompareDomainName CountLabel lowerLabels labelTexts
  by_cases hp : parent = "."
  · simp [hp]
  · by_cases hc : child = "."
    · have hne := labelPieces_ne_nil parent.length parent.data
      simp [hp, hc, hne]
      exact fun h => hne (List.length_eq_zero.mp h.symm)
    · simp only [hp, hc, or_self, if_false]
      rw [beq_iff_eq, ← List.length_reverse (labelPieces (parent.length + 1) parent.data),
        commonLen_eq_length_iff, List.map_reverse, List.map_reverse, List.reverse_prefix]

theorem ValidateOne_of_ok (cr : Crypto) (now : Nat) (rrset : List RR) (sig key : RR)
    (name : String) (rtype : Nat)
    (hn : RrsetName rrset = (name, none)) (ht : RrsetType rrset = (rtype, none)) :
    ValidateOne cr now rrset sig key =
      if rtype != TypeDS && !IsSubDomain name sig.SignerName then some .BadSigner
      else if rtype == TypeDS && IsSubDomain name sig.SignerName then some .BadSigner
      else if !cr.ValidityPeriod sig now then some .NotValidNow
      else match cr.Verify sig key rrset with
        | some e => some (.Lib e)
        | none => none := by
  simp only [ValidateOne, hn, ht]

/-- Claim C1, as stated, fails: the A record of `www.example.com.` signed by its zone
`example.com.` (a suffix of the owner name) is rejected with "Bad signer", and
the DNSKEY of `example.com.` signed by the zone `www.example.com.` below it (not
a suffix of the owner name) is not: `ValidateOne` goes on to the validity period
and the verification. -/
theorem ValidateOne_suffix_signer_rejected :
    (RrsetName [wwwA] = ("www.example.com.", none) ∧ RrsetType [wwwA] = (1, none) ∧
      lowerLabels apexSig.SignerName <:+ lowerLabels "www.example.com." ∧
      ValidateOne demoCrypto 50 [wwwA] apexSig apexKey = some Err.BadSigner) ∧
    (RrsetName [apexKey] = ("example.com.", none) ∧ RrsetType [apexKey] = (TypeDNSKEY, none) ∧
      ¬ lowerLabels deepSig.SignerName <:+ lowerLabels "example.com." ∧
      ValidateOne demoCrypto 50 [apexKey] deepSig deepKey = none) := by
  decide

/-- Claim C1, amended: for an RRset with owner name `name` and a common type other
than DS, `ValidateOne` returns "Bad signer" whenever `name` is not, label by
label and ignoring ASCII case, a suffix of the signer name (the signer name is
neither `name` nor below it), whatever the validity period and the
verification say; and it does not fail with "Bad signer" when `name` is such a
suffix of the signer name. -/
theorem ValidateOne_signer_scope (cr : Crypto) (now : Nat) (rrset : List RR) (sig key : RR)
    (name : String) (rtype : Nat)
    (hn : RrsetName rrset = (name, none)) (ht : RrsetType rrset = (rtype, none))
    (hds : rtype ≠ TypeDS) :
    (¬ lowerLabels name <:+ lowerLabels sig.SignerName →
      ValidateOne cr now rrset sig key = some Err.BadSigner) ∧
    (lowerLabels name <:+ lowerLabels sig.SignerName →
      ValidateOne cr now rrset sig key ≠ some Err.BadSigner) := by
  rw [ValidateOne_of_ok cr now rrset sig key name rtype hn ht, ← IsSubDomain_iff_suffix]
  constructor
  · intro h
    simp [hds, h]
  · intro h
    have h1 : (rtype != TypeDS && !IsSubDomain name sig.SignerName) = false := by simp [h]
    have h2 : (rtype == TypeDS && IsSubDomain name sig.SignerName) = false := by simp [hds]
    rw [h1, h2]
    by_cases hv : cr.ValidityPeriod sig now = true
    · cases hver : cr.Verify sig key rrset <;> simp [hv]
    · simp [hv]

/-- Claim C1, amended, at the A record of `www.example.com.` signed by
`example.com.` and at the DNSKEY of `Example.COM.` signed by `example.com.`. -/
theorem ValidateOne_signer_scope_witness :
    ((¬ lowerLabels "www.example.com." <:+ lowerLabels apexSig.SignerName →
        ValidateOne demoCrypto 50 [wwwA] apexSig apexKey = some Err.BadSigner) ∧
      (lowerLabels "www.example.com." <:+ lowerLabels apexSig.SignerName →
        ValidateOne demoCrypto 50 [wwwA] apexSig apexKey ≠ some Err.BadSigner)) ∧
    ((¬ lowerLabels "Example.COM." <:+ lowerLabels mixedSig.SignerName →
        ValidateOne demoCrypto 50 [mixedKey] mixedSig apexKey = some Err.BadSigner) ∧
      (lowerLabels "Example.COM." <:+ lowerLabels mixedSig.SignerName →
        ValidateOne demoCrypto 50 [mixedKey] mixedSig apexKey ≠ some Err.BadSigner)) :=
  ⟨ValidateOne_signer_scope demoCrypto 50 [wwwA] apexSig apexKey "www.example.com." 1
      (by decide) (by decide) (by decide),
   ValidateOne_signer_scope demoCrypto 50 [mixedKey] mixedSig apexKey "Example.COM." TypeDNSKEY
      (by decide) (by decide) (by decide)⟩

/-- Claim C2, as stated, fails: the DS of `example.com.` signed by its parent `com.`
(a suffix of the owner name) is not rejected: `ValidateOne` returns nil. -/
theorem ValidateOne_parent_signed_DS_accepted :
    RrsetName [parentDS] = ("example.com.", none) ∧ RrsetType [parentDS] = (TypeDS, none) ∧
    lowerLabels parentDSSig.SignerName <:+ lowerLabels "example.com." ∧
    ValidateOne demoCrypto 50 [parentDS] parentDSSig comKey = none := by
  decide

/-- Claim C2, amended: for an RRset of common type DS with owner name `name`,
`ValidateOne` returns "Bad signer" whenever `name` is, label by label and
ignoring ASCII case, a suffix of the signer name (the signer name is `name` or
lies below it), whatever the validity period and the verification would say. -/
theorem ValidateOne_DS_signer_scope (cr : Crypto) (now : Nat) (rrset : List RR) (sig key : RR)
    (name : String)
    (hn : RrsetName rrset = (name, none)) (ht : RrsetType rrset = (TypeDS, none))
    (hsub : lowerLabels name <:+ lowerLabels sig.SignerName) :
    ValidateOne cr now rrset sig key = some Err.BadSigner := by
  rw [ValidateOne_of_ok cr now rrset sig key name TypeDS hn ht]
  rw [← IsSubDomain_iff_suffix] at hsub
  simp [hsub]

/-- Claim C2, amended, at the DS of `example.com.` signed by `example.com.`
itself and at the DS of `Example.COM.` signed by `example.com.`. -/
theorem ValidateOne_DS_signer_scope_witness :
    ValidateOne demoCrypto 50 [parentDS] selfDSSig apexKey = some Err.BadSigner ∧
    ValidateOne demoCrypto 50 [mixedDS] mixedDSSig apexKey = some Err.BadSigner :=
  ⟨ValidateOne_DS_signer_scope demoCrypto 50 [parentDS] selfDSSig apexKey "example.com."
      (by decide) (by decide) (by decide),
   ValidateOne_DS_signer_scope demoCrypto 50 [mixedDS] mixedDSSig apexKey "Example.COM."
      (by decide) (by decide) (by decide)⟩

/-! ### The resolver at concrete inputs -/

/-- Claim C3: the first exchange completes without error and carries an
authoritative NXDOMAIN; `QueryAtOrigin` returns an empty answer with a nil
error, and `DomainKeys` returns empty keys with a nil error. -/
theorem QueryAtOrigin_nxdomain_not_reported :
    (Query nxEnv NewChecker "nx.example." TypeDNSKEY "a.root-servers.net.:53").1 =
      (some { Rcode := RcodeNameError, Authoritative := true }, none) ∧
    (QueryAtOrigin nxEnv NewChecker "nx.example." TypeDNSKEY).val? = some ([], none) ∧
    (DomainKeys demoCrypto nxEnv 1 NewChecker "nx.example.").val? = some (some {}, none) := by
  decide

/-- Claim C5: ten rounds, each answered by a well-formed referral: `QueryAtOrigin`
returns a nil record set together with a nil error. -/
theorem QueryAtOrigin_depth_exceeded_nil_error :
    (QueryAtOrigin referralEnv NewChecker "example.com." TypeDNSKEY).val? = some ([], none) := by
  decide

/-- Claim C7: with a signature row in first place `RrsetName` fails with "Multiple
names in RRSet" although the only row that is not NSEC, NSEC3 or RRSIG is the
NS row owned by `com.`; with the NS row first the same records give `com.`. -/
theorem RrsetName_signature_row_first :
    RrsetName [apexSig, comNS] = ("", some Err.MultipleNames) ∧
    RrsetName [comNS, apexSig] = ("com.", none) ∧
    ([apexSig, comNS].filter (fun rr => !isNsecLike rr.Rrtype)).map (fun rr => rr.Name) =
      ["com."] := by
  decide

/-- Claim C10: once the CDS answer of `example.` is cached with its signature, the
DNSKEY lookup is served from the cache (every exchange would fail, and on the
fresh checker the same lookup does fail) and returns the CDS signature alone:
no record of type DNSKEY. -/
theorem QueryAtOrigin_cached_signature_hides_type :
    (QueryAtOrigin cdsEnv NewChecker "example." TypeCDS).val? =
      some ([childCDS, childCDSSig], none) ∧
    (QueryAtOrigin deadEnv (QueryAtOrigin cdsEnv NewChecker "example." TypeCDS).stateD
      "example." TypeDNSKEY).val? = some ([childCDSSig], none) ∧
    childCDSSig.Rrtype ≠ TypeDNSKEY ∧
    (QueryAtOrigin deadEnv NewChecker "example." TypeDNSKEY).val? =
      some ([], some (Err.LookupFailed "example.")) := by
  decide

/-- Claim C9: the DNSKEY of `example.` is self-signed and untrusted, the DS set of
`example.` validates under the root anchor, and `Validate` returns the anchor
although no DS of that set matches the signing key. -/
theorem Validate_accepts_unmatched_DS :
    (Validate demoCrypto chainEnv 2 anchored [childKey] [childSig]).val? = some "." ∧
    IsTrustedKey anchored childKey = ("", false) ∧
    GetKey demoCrypto [childKey] childSig.KeyTag = some childKey ∧
    (Lookup chainEnv (Lookup chainEnv anchored "example." TypeDNSKEY).stateD
      "example." TypeDS).val? = some ([otherDS, otherDSSig], none) ∧
    SignedRecords [otherDS, otherDSSig] TypeDS = ([otherDS], [otherDSSig]) ∧
    (Validate demoCrypto chainEnv 1
      (Lookup chainEnv (Lookup chainEnv anchored "example." TypeDNSKEY).stateD
        "example." TypeDS).stateD [otherDS] [otherDSSig]).val? = some "." ∧
    GetDS demoCrypto [otherDS] childKey = none := by
  decide

/-! ### The facade -/

/-- Claim C4, as stated, fails: the three lookups succeed and bring the DNSKEY of
`example.` with its expired signature, every `Validate` returns the empty
string, and `DomainKeys` returns no signer and an empty DNSKEY field. -/
theorem DomainKeys_drops_unvalidated_records :
    lookupAll expiredEnv "example." [TypeCDS, TypeCDNSKEY, TypeDNSKEY] [] anchored =
      .ret ([childKey, childSig], none) expired1 ∧
    (SignedRecords [childKey, childSig] TypeDNSKEY).1 = [childKey] ∧
    Validate demoCrypto expiredEnv 1 expired1 [] [] = .ret "" expired2 ∧
    Validate demoCrypto expiredEnv 1 expired2 [] [] = .ret "" expired3 ∧
    Validate demoCrypto expiredEnv 1 expired3 [childKey] [childSig] = .ret "" expired4 ∧
    (DomainKeys demoCrypto expiredEnv 1 anchored "example.").val? =
      some (some { Signers := [], DNSKEY := [], CDS := [], CDNSKEY := [] }, none) := by
  decide

/-- Claim C4, amended: when the three lookups succeed and `Validate` returns the
empty string for each of CDS, CDNSKEY and DNSKEY, `DomainKeys` returns a
`PublishedKeys` whose `Signers`, `DNSKEY`, `CDS` and `CDNSKEY` are all empty. -/
theorem DomainKeys_nothing_validated (cr : Crypto) (env : Env) (fuel : Nat) (c : Checker)
    (domain : String) (answer : List RR) (c1 c2 c3 c4 : Checker)
    (hl : lookupAll env domain [TypeCDS, TypeCDNSKEY, TypeDNSKEY] [] c = .ret (answer, none) c1)
    (h1 : Validate cr env fuel c1 (SignedRecords answer TypeCDS).1
      (SignedRecords answer TypeCDS).2 = .ret "" c2)
    (h2 : Validate cr env fuel c2 (SignedRecords answer TypeCDNSKEY).1
      (SignedRecords answer TypeCDNSKEY).2 = .ret "" c3)
    (h3 : Validate cr env fuel c3 (SignedRecords answer TypeDNSKEY).1
      (SignedRecords answer TypeDNSKEY).2 = .ret "" c4) :
    DomainKeys cr env fuel c domain =
      .ret (some { Signers := [], DNSKEY := [], CDS := [], CDNSKEY := [] }, none) c4 := by
  simp [DomainKeys, ValidKeys, validKeysLoop, hl, h1, h2, h3, fillKeys]

/-- Claim C4, amended, at the zone `example.` whose signatures have expired. -/
theorem DomainKeys_nothing_validated_witness :
    DomainKeys demoCrypto expiredEnv 1 anchored "example." =
      .ret (some { Signers := [], DNSKEY := [], CDS := [], CDNSKEY := [] }, none) expired4 :=
  DomainKeys_nothing_validated demoCrypto expiredEnv 1 anchored "example." [childKey, childSig]
    expired1 expired2 expired3 expired4 (by decide) (by decide) (by decide) (by decide)

/-! ### Trust anchors -/

/-- One round of the loop of `Validate` on a single signature whose key is
untrusted and not in the RRset: when the nested call on the signed DS records
exhausts the recursion bound, so does the round. -/
theorem validateLoop_signer_fuel (cr : Crypto) (env : Env)
    (recur : Checker → List RR → List RR → Run String) (rrset : List RR) (sig key : RR)
    (set : List RR) (c c1 : Checker)
    (hl : Lookup env c sig.SignerName TypeDNSKEY = .ret (set, none) c1)
    (hk : GetKey cr set sig.KeyTag = some key)
    (hv : ValidateOne cr (env.now c1.tick) rrset sig key = none)
    (ht : c1.trustedKeys = [])
    (hn : GetKey cr rrset sig.KeyTag = none)
    (hr : recur c1 (SignedRecords set TypeDS).1 (SignedRecords set TypeDS).2 = .fuel) :
    validateLoop cr env recur rrset [sig] c = .fuel := by
  unfold validateLoop
  simp only [hl, hk, hv, IsTrustedKey, ht, List.find?_nil, hn, hr]

theorem cycleWarm_lookup_b (t : Nat) :
    Lookup cycleEnv (cycleWarm t) "b." TypeDNSKEY =
      .ret ([keyB, sigDSB, nsB, dsB], none) (cycleWarm (t + 3)) := rfl

theorem cycleWarm_lookup_a (t : Nat) :
    Lookup cycleEnv (cycleWarm t) "a." TypeDNSKEY =
      .ret ([keyA, sigDSA, nsA, dsA], none) (cycleWarm (t + 3)) := rfl

theorem cycleWarm_fuel (fuel : Nat) : ∀ t,
    Validate demoCrypto cycleEnv fuel (cycleWarm t) [dsA] [sigDSA] = .fuel ∧
    Validate demoCrypto cycleEnv fuel (cycleWarm t) [dsB] [sigDSB] = .fuel := by
  induction fuel with
  | zero => intro t; exact ⟨rfl, rfl⟩
  | succ fuel ih =>
    intro t
    constructor
    · unfold Validate
      exact validateLoop_signer_fuel demoCrypto cycleEnv _ [dsA] sigDSA keyB
        [keyB, sigDSB, nsB, dsB] (cycleWarm t) (cycleWarm (t + 3)) (cycleWarm_lookup_b t)
        (by decide) (show ValidateOne demoCrypto 50 [dsA] sigDSA keyB = none by decide) rfl (by decide) (ih (t + 3)).2
    · unfold Validate
      exact validateLoop_signer_fuel demoCrypto cycleEnv _ [dsB] sigDSB keyA
        [keyA, sigDSA, nsA, dsA] (cycleWarm t) (cycleWarm (t + 3)) (cycleWarm_lookup_a t)
        (by decide) (show ValidateOne demoCrypto 50 [dsB] sigDSB keyA = none by decide) rfl (by decide) (ih (t + 3)).1

/-- Claim C6, as stated, fails: no trust anchor is configured, the zones `a.`
and `b.` sign each other's DS, and `Validate` on the DS of `a.` does not return
the empty string: it returns nothing, each nested call making another one,
whatever the bound on the depth of the recursion. -/
theorem Validate_cycle_never_returns :
    NewChecker.trustedKeys = [] ∧
    ∀ fuel, Validate demoCrypto cycleEnv fuel NewChecker [dsA] [sigDSA] = Run.fuel := by
  refine ⟨rfl, fun fuel => ?_⟩
  cases fuel with
  | zero => rfl
  | succ fuel =>
    unfold Validate
    refine validateLoop_signer_fuel demoCrypto cycleEnv _ [dsA] sigDSA keyB
      [keyB, sigDSB, nsB, dsB] NewChecker cycleCold (by decide) (by decide) (by decide)
      (by decide) (by decide) ?_
    cases fuel with
    | zero => rfl
    | succ fuel =>
      show Validate demoCrypto cycleEnv (fuel + 1) cycleCold [dsB] [sigDSB] = Run.fuel
      unfold Validate
      exact validateLoop_signer_fuel demoCrypto cycleEnv _ [dsB] sigDSB keyA
        [keyA, sigDSA, nsA, dsA] cycleCold (cycleWarm 32) (by decide) (by decide) (by decide)
        (by decide) (by decide) (cycleWarm_fuel fuel 32).1

/-- Claim C6, amended, at the chain of `chainEnv`: with the root key as anchor
`Validate` returns its owner name and the evidence holds of that run; without
anchor `DomainKeys` returns and its signers are empty. -/
theorem Validate_returns_anchor_label_witness :
    Validate demoCrypto chainEnv 2 anchored [childKey] [childSig] = .ret "." chainFinal ∧
    AnchorEvidence demoCrypto chainEnv anchored [childKey] [childSig] "." ∧
    DomainKeys demoCrypto chainEnv 3 NewChecker "example." =
      .ret (some { Signers := [], DNSKEY := [], CDS := [], CDNSKEY := [] }, none) chainBare ∧
    ({ Signers := [], DNSKEY := [], CDS := [], CDNSKEY := [] } : PublishedKeys).Signers = [] :=
  ⟨by decide,
   (Validate_returns_anchor_label demoCrypto chainEnv 2 anchored).1 [childKey] [childSig] "."
      chainFinal (by decide) (by decide),
   by decide,
   ((Validate_returns_anchor_label demoCrypto chainEnv 3 NewChecker).2 (by decide)).2 "example."
      { Signers := [], DNSKEY := [], CDS := [], CDNSKEY := [] } none chainBare (by decide)⟩

/-! ### The owner names in the referral store -/

/-- Claim C8, as stated, fails: after `www.example.com.` is resolved through a
referral that carries an NSEC3 row and an answer that follows a CNAME, the
cached referral of `com.` holds an authority record of another owner and the
cached referral of `www.example.com.` holds an answer record of another
owner. -/
theorem Reachable_referral_foreign_owner :
    Reachable cnameState ∧
    ({ origin := "com.", authority := [comNSEC3, comNS] } : Referral) ∈ cachedReferrals cnameState ∧
    ¬ OwnedByOrigin { origin := "com.", authority := [comNSEC3, comNS] } ∧
    ({ origin := "www.example.com.", answer := [wwwCNAME, webA] } : Referral) ∈
      cachedReferrals cnameState ∧
    ¬ OwnedByOrigin { origin := "www.example.com.", answer := [wwwCNAME, webA] } := by
  refine ⟨?_, by decide, ?_, by decide, ?_⟩
  · exact Reachable.query cnameEnv NewChecker "www.example.com." 1 ([wwwCNAME, webA], none)
      cnameState Reachable.init (by decide)
  · unfold OwnedByOrigin; decide
  · unfold OwnedByOrigin; decide

/-- Claim C8, amended, at the state reached by resolving `www.example.com.`. -/
theorem Reachable_authority_owned_witness :
    (∀ r ∈ cachedReferrals cnameState, AuthorityOwned r) ∧
    (deref cnameState.heap cnameState.root).origin = "." ∧
    (∀ e ∈ cnameState.referrals, (deref cnameState.heap e.2).origin = e.1) :=
  Reachable_authority_owned cnameState
    (Reachable.query cnameEnv NewChecker "www.example.com." 1 ([wwwCNAME, webA], none)
      cnameState Reachable.init (by decide))

end CdsCheck
